import Mathlib

/-!
Verification of the Catalyst platform-configuration interpreter
(`src/catalyst/src-tauri/src/lib.rs`): the VDF tokenizer, parser and
serializer, path navigation/mutation, the Steam topology resolver, the
manifest interpreter, the install/download state machine, the collections
extractor and the settings editor.  Rust functions are shallowly embedded
as executable Lean definitions with the same names; `&mut` references into
the document tree are rendered as pure state passing (a continuation that
receives the value at the referenced position).
-/

namespace Catalyst

/-- Rust `char::is_whitespace`: the Unicode White_Space property. -/
def rustIsWhitespace (c : Char) : Bool :=
  (0x09 ≤ c.toNat && c.toNat ≤ 0x0D) || c.toNat = 0x20 || c.toNat = 0x85 ||
  c.toNat = 0xA0 || c.toNat = 0x1680 ||
  (0x2000 ≤ c.toNat && c.toNat ≤ 0x200A) || c.toNat = 0x2028 ||
  c.toNat = 0x2029 || c.toNat = 0x202F || c.toNat = 0x205F || c.toNat = 0x3000

/-- Rust `enum VdfToken`. -/
inductive VdfToken where
  | OpenBrace
  | CloseBrace
  | Text (s : String)
deriving Repr, DecidableEq

/-- Rust `enum VdfValue`: a text leaf or an ordered, duplicate-key-tolerant
list of key/value entries. -/
inductive VdfValue where
  | Object (entries : List (String × VdfValue))
  | Text (s : String)
deriving Repr

/-- The unescaping of one escaped character inside a quoted VDF token
(the `match escaped_character` table in `tokenize_vdf`); an escaped NUL
contributes nothing. -/
def vdfEscapedChar (e : Char) : List Char :=
  if e = '\\' then ['\\']
  else if e = '"' then ['"']
  else if e = 'n' then ['\n']
  else if e = 'r' then ['\r']
  else if e = 't' then ['\t']
  else if e = '\x00' then []
  else [e]

/-- The quoted-token loop of `tokenize_vdf`: reads characters after an
opening quote until an unescaped closing quote (or end of input), skipping
NUL bytes and unescaping backslash sequences.  Returns the token body and
the remaining characters. -/
def readQuoted (acc : List Char) : List Char → List Char × List Char
  | [] => (acc, [])
  | c :: rest =>
    if c = '"' then (acc, rest)
    else if c = '\x00' then readQuoted acc rest
    else if c = '\\' then
      match rest with
      | [] => (acc, [])
      | e :: rest2 => readQuoted (acc ++ vdfEscapedChar e) rest2
    else readQuoted (acc ++ [c]) rest

/-- The line-comment loop of `tokenize_vdf`: consumes characters through
the next newline (or end of input). -/
def skipLineComment : List Char → List Char
  | [] => []
  | c :: rest => if c = '\n' then rest else skipLineComment rest

/-- The bare-token loop of `tokenize_vdf`: extends `acc` with characters
until whitespace or a brace (left unconsumed), skipping NUL bytes. -/
def readBare (acc : List Char) : List Char → List Char × List Char
  | [] => (acc, [])
  | c :: rest =>
    if c = '\x00' then readBare acc rest
    else if rustIsWhitespace c || c = '{' || c = '}' then (acc, c :: rest)
    else readBare (acc ++ [c]) rest

theorem readQuoted_cons (acc : List Char) (c : Char) (rest : List Char) :
    readQuoted acc (c :: rest) =
      if c = '"' then (acc, rest)
      else if c = '\x00' then readQuoted acc rest
      else if c = '\\' then
        match rest with
        | [] => (acc, [])
        | e :: rest2 => readQuoted (acc ++ vdfEscapedChar e) rest2
      else readQuoted (acc ++ [c]) rest := by
  rw [readQuoted.eq_def]

theorem readQuoted_length_le (acc cs : List Char) :
    (readQuoted acc cs).2.length ≤ cs.length := by
  induction acc, cs using readQuoted.induct with
  | case1 acc => simp [readQuoted]
  | case2 acc rest2 => simp [readQuoted_cons]
  | case3 acc rest2 h ih => simp [readQuoted_cons]; omega
  | case4 acc h h0 => simp [readQuoted_cons]
  | case5 acc e rest2 h h0 ih => simp [readQuoted_cons]; omega
  | case6 acc e rest2 h h0 hb ih => simp [readQuoted_cons, h, h0, hb]; omega

theorem skipLineComment_length_le (cs : List Char) :
    (skipLineComment cs).length ≤ cs.length := by
  induction cs with
  | nil => simp [skipLineComment]
  | cons c rest ih =>
      rw [skipLineComment]
      split
      · simp
      · simp only [List.length_cons]; omega

set_option maxHeartbeats 1000000 in
theorem readBare_cons (acc : List Char) (c : Char) (rest : List Char) :
    readBare acc (c :: rest) =
      if c = '\x00' then readBare acc rest
      else if rustIsWhitespace c || c = '{' || c = '}' then (acc, c :: rest)
      else readBare (acc ++ [c]) rest := by
  rw [readBare.eq_def]

theorem readBare_length_le (acc cs : List Char) :
    (readBare acc cs).2.length ≤ cs.length := by
  induction acc, cs using readBare.induct with
  | case1 acc => simp [readBare]
  | case2 acc rest2 ih => simp [readBare_cons]; omega
  | case3 acc e rest2 h h0 => simp [readBare_cons, h, h0]
  | case4 acc e rest2 h h0 ih => simp [readBare_cons, h, h0]; omega

/-- The main loop of `tokenize_vdf` over the character stream. -/
def tokenizeLoop : List Char → List VdfToken
  | [] => []
  | c :: rest =>
    if c = '{' then .OpenBrace :: tokenizeLoop rest
    else if c = '}' then .CloseBrace :: tokenizeLoop rest
    else if c = '"' then
      .Text (String.mk (readQuoted [] rest).1) :: tokenizeLoop (readQuoted [] rest).2
    else if c = '/' ∧ rest.head? = some '/' then tokenizeLoop (skipLineComment rest.tail)
    else if rustIsWhitespace c || c = '\x00' then tokenizeLoop rest
    else .Text (String.mk (readBare [c] rest).1) :: tokenizeLoop (readBare [c] rest).2
termination_by cs => cs.length
decreasing_by
  all_goals simp_wf
  all_goals
    first
    | omega
    | (have h1 := readQuoted_length_le [] rest2; omega)
    | (have h1 := skipLineComment_length_le rest2.tail
       have h2 : rest2.tail.length ≤ rest2.length := by
         cases rest2 <;> simp
       omega)
    | (have h1 := readBare_length_le [e] rest2; omega)

/-- Rust `tokenize_vdf`: strips any leading byte-order markers and runs the
tokenizing loop. -/
def tokenize_vdf (contents : String) : List VdfToken :=
  tokenizeLoop (contents.data.dropWhile (fun c => c = Char.ofNat 0xFEFF))

/-- Rust `parse_vdf_tokens`, with the cursor rendered as the returned
remainder of the token list (bundled with the invariant that the remainder
is no longer than the input, which justifies termination of the
continue-at-same-level call after a nested object). -/
def parseVdfTokensAux : (ts : List VdfToken) →
    Except String (List (String × VdfValue) × { rem : List VdfToken // rem.length ≤ ts.length })
  | [] => .ok ([], ⟨[], Nat.le_refl _⟩)
  | .CloseBrace :: rest => .ok ([], ⟨rest, by simp⟩)
  | .OpenBrace :: _ => .error "Invalid VDF format: unexpected open brace"
  | .Text key :: [] => .error ("Invalid VDF format: missing value for key " ++ key)
  | .Text key :: .CloseBrace :: _ =>
      .error ("Invalid VDF format: missing value for key " ++ key)
  | .Text key :: .Text value :: rest =>
    match parseVdfTokensAux rest with
    | .error e => .error e
    | .ok (entries, ⟨rem, hrem⟩) =>
        .ok ((key, .Text value) :: entries, ⟨rem, by simp; omega⟩)
  | .Text key :: .OpenBrace :: rest =>
    match parseVdfTokensAux rest with
    | .error e => .error e
    | .ok (child, ⟨rem, hrem⟩) =>
      match parseVdfTokensAux rem with
      | .error e => .error e
      | .ok (entries, ⟨rem2, hrem2⟩) =>
          .ok ((key, .Object child) :: entries, ⟨rem2, by simp; omega⟩)
termination_by ts => ts.length
decreasing_by
  all_goals simp_wf
  · omega
  · omega
  · omega

/-- Rust `parse_vdf_tokens` (remainder without the length invariant). -/
def parse_vdf_tokens (ts : List VdfToken) :
    Except String (List (String × VdfValue) × List VdfToken) :=
  match parseVdfTokensAux ts with
  | .error e => .error e
  | .ok (entries, rem) => .ok (entries, rem.val)

/-- The token-level part of `parse_vdf_document`: parse one top-level
entry list and fail if tokens remain. -/
def parse_vdf_document_tokens (tokens : List VdfToken) : Except String VdfValue :=
  match parse_vdf_tokens tokens with
  | .error e => .error e
  | .ok (entries, rem) =>
    if rem.isEmpty then .ok (.Object entries)
    else .error "Invalid VDF format: trailing tokens"

/-- Rust `parse_vdf_document`: tokenize, parse one top-level entry list,
and fail if tokens remain. -/
def parse_vdf_document (contents : String) : Except String VdfValue :=
  parse_vdf_document_tokens (tokenize_vdf contents)

/-- Rust `escape_vdf_text`, character by character. -/
def escapeVdfChar (c : Char) : List Char :=
  if c = '\\' then ['\\', '\\']
  else if c = '"' then ['\\', '"']
  else if c = '\n' then ['\\', 'n']
  else if c = '\r' then ['\\', 'r']
  else if c = '\t' then ['\\', 't']
  else [c]

/-- Rust `escape_vdf_text`. -/
def escape_vdf_text (value : String) : String :=
  String.mk (value.data.flatMap escapeVdfChar)

mutual
/-- Rust `serialize_vdf_entry`. -/
def serialize_vdf_entry (key : String) (value : VdfValue) (depth : Nat) : String :=
  let indent := String.mk (List.replicate depth '\t')
  match value with
  | .Text text =>
      indent ++ "\"" ++ escape_vdf_text key ++ "\"" ++ "\t" ++ "\"" ++
        escape_vdf_text text ++ "\"" ++ "\n"
  | .Object entries =>
      indent ++ "\"" ++ escape_vdf_text key ++ "\"" ++ "\n" ++ indent ++ "\x7b\n" ++
        serialize_vdf_entries entries (depth + 1) ++ indent ++ "\x7d\n"

/-- The serialization of a list of entries at one depth (the entry loop
inside `serialize_vdf_entry` / `serialize_vdf_document`). -/
def serialize_vdf_entries (entries : List (String × VdfValue)) (depth : Nat) : String :=
  match entries with
  | [] => ""
  | (key, value) :: rest =>
      serialize_vdf_entry key value depth ++ serialize_vdf_entries rest depth
end

/-- Rust `serialize_vdf_document`. -/
def serialize_vdf_document (value : VdfValue) : String :=
  match value with
  | .Object entries => serialize_vdf_entries entries 0
  | .Text text => "\"" ++ escape_vdf_text text ++ "\"" ++ "\n"

/-! ### String utilities mirroring the Rust standard library -/

/-- Rust `u8::to_ascii_lowercase` lifted to characters: lowercases only
the ASCII uppercase letters. -/
def asciiLowerChar (c : Char) : Char :=
  if 'A' ≤ c ∧ c ≤ 'Z' then Char.ofNat (c.toNat + 32) else c

/-- Rust `str::eq_ignore_ascii_case`. -/
def eq_ignore_ascii_case (a b : String) : Bool :=
  a.data.map asciiLowerChar = b.data.map asciiLowerChar

/-- Rust `str::to_ascii_lowercase`. -/
def toAsciiLowercase (s : String) : String :=
  String.mk (s.data.map asciiLowerChar)

/-- Rust `str::trim_matches` with a character predicate: strips matching
characters from both ends. -/
def trim_matches (p : Char → Bool) (s : String) : String :=
  String.mk (((s.data.dropWhile p).reverse.dropWhile p).reverse)

/-- Rust `str::trim` (Unicode-whitespace trim at both ends). -/
def rustTrim (s : String) : String :=
  trim_matches rustIsWhitespace s

/-- Rust `u64::from_str`: an optional leading plus sign, then one or more
ASCII digits, rejecting values outside the 64-bit range. -/
def rust_parse_u64 (s : String) : Option Nat :=
  let ds := match s.data with
    | '+' :: rest => rest
    | other => other
  if ds ≠ [] ∧ ds.all Char.isDigit then
    let n := ds.foldl (fun acc c => acc * 10 + (c.toNat - '0'.toNat)) 0
    if n < 2 ^ 64 then some n else none
  else none

/-! ### Install/download state machine (`infer_steam_download_state`) -/

def STEAM_APP_STATE_UPDATE_REQUIRED : Nat := 0x2
def STEAM_APP_STATE_FULLY_INSTALLED : Nat := 0x4
def STEAM_APP_STATE_UPDATE_RUNNING : Nat := 0x100
def STEAM_APP_STATE_UPDATE_PAUSED : Nat := 0x200
def STEAM_APP_STATE_UPDATE_STARTED : Nat := 0x400
def STEAM_APP_STATE_VALIDATING : Nat := 0x20000
def STEAM_APP_STATE_ADDING_FILES : Nat := 0x40000
def STEAM_APP_STATE_PREALLOCATING : Nat := 0x80000
def STEAM_APP_STATE_DOWNLOADING : Nat := 0x100000
def STEAM_APP_STATE_STAGING : Nat := 0x200000
def STEAM_APP_STATE_COMMITTING : Nat := 0x400000

/-- Rust `infer_steam_download_state`: maps the 64-bit state-flags bitmask
plus the two auxiliary booleans to the discrete download-state label. -/
def infer_steam_download_state (state_flags : Nat)
    (has_progress has_active_download_directory : Bool) : Option String :=
  if state_flags &&& STEAM_APP_STATE_UPDATE_PAUSED ≠ 0 then some "Paused"
  else if state_flags &&& STEAM_APP_STATE_PREALLOCATING ≠ 0 then some "Preallocating"
  else if state_flags &&& STEAM_APP_STATE_DOWNLOADING ≠ 0 then some "Downloading"
  else if state_flags &&& STEAM_APP_STATE_UPDATE_RUNNING ≠ 0 ∨
      state_flags &&& STEAM_APP_STATE_UPDATE_STARTED ≠ 0 then
    if has_progress || has_active_download_directory then some "Downloading"
    else some "Updating"
  else if state_flags &&& STEAM_APP_STATE_STAGING ≠ 0 then some "Staging"
  else if state_flags &&& STEAM_APP_STATE_COMMITTING ≠ 0 ∨
      state_flags &&& STEAM_APP_STATE_ADDING_FILES ≠ 0 then some "Installing"
  else if state_flags &&& STEAM_APP_STATE_VALIDATING ≠ 0 then some "Verifying"
  else if has_progress || has_active_download_directory then some "Queued"
  else if state_flags &&& STEAM_APP_STATE_UPDATE_REQUIRED ≠ 0 ∧
      state_flags &&& STEAM_APP_STATE_FULLY_INSTALLED = 0 then some "Queued"
  else none

/-- The spec's priority list for the state machine, written as an ordered
list of guarded rules; the first rule whose guard holds gives the label. -/
def spec_download_state_rules (state_flags : Nat)
    (hasProgress hasActiveDownloadDirectory : Bool) : List (Bool × String) :=
  [ (decide (state_flags &&& STEAM_APP_STATE_UPDATE_PAUSED ≠ 0), "Paused"),
    (decide (state_flags &&& STEAM_APP_STATE_PREALLOCATING ≠ 0), "Preallocating"),
    (decide (state_flags &&& STEAM_APP_STATE_DOWNLOADING ≠ 0), "Downloading"),
    (decide (state_flags &&& STEAM_APP_STATE_UPDATE_RUNNING ≠ 0 ∨
        state_flags &&& STEAM_APP_STATE_UPDATE_STARTED ≠ 0),
      if hasProgress || hasActiveDownloadDirectory then "Downloading" else "Updating"),
    (decide (state_flags &&& STEAM_APP_STATE_STAGING ≠ 0), "Staging"),
    (decide (state_flags &&& STEAM_APP_STATE_COMMITTING ≠ 0 ∨
        state_flags &&& STEAM_APP_STATE_ADDING_FILES ≠ 0), "Installing"),
    (decide (state_flags &&& STEAM_APP_STATE_VALIDATING ≠ 0), "Verifying"),
    (hasProgress || hasActiveDownloadDirectory, "Queued"),
    (decide (state_flags &&& STEAM_APP_STATE_UPDATE_REQUIRED ≠ 0 ∧
        state_flags &&& STEAM_APP_STATE_FULLY_INSTALLED = 0), "Queued") ]

/-- First-match-wins reading of the spec's priority list. -/
def spec_download_state (state_flags : Nat)
    (hasProgress hasActiveDownloadDirectory : Bool) : Option String :=
  ((spec_download_state_rules state_flags hasProgress hasActiveDownloadDirectory).find?
    (fun rule => rule.1)).map (fun rule => rule.2)

/-! ### Topology resolver (`resolve_steam_root_path`) -/

/-- Rust `Path::join` rendered over string paths. -/
def pathJoin (base child : String) : String :=
  base ++ "/" ++ child

/-- Rust `resolve_steam_root_path`, abstracted over the filesystem probe
`is_dir` and the OS-conditioned candidate list produced by
`steam_root_candidates`: a non-empty trimmed override is returned directly,
otherwise the first candidate whose `steamapps` subdirectory exists. -/
def resolve_steam_root_path (is_dir : String → Bool) (candidates : List String)
    (steam_root_override : Option String) : Option String :=
  match steam_root_override with
  | some override_path =>
    let trimmed := rustTrim override_path
    if trimmed ≠ "" then some trimmed
    else candidates.find? (fun candidate => is_dir (pathJoin candidate "steamapps"))
  | none => candidates.find? (fun candidate => is_dir (pathJoin candidate "steamapps"))

/-! ### Collection-name filtering (`parse_collection_name_candidate`) -/

/-- Rust `parse_collection_name_candidate`: strips NUL characters, trims
whitespace, and rejects empty strings, the lowercased noise tokens and
all-digit strings. -/
def parse_collection_name_candidate (raw_value : String) : Option String :=
  let normalized := String.mk (raw_value.data.filter (fun c => c ≠ '\x00'))
  let normalized := rustTrim normalized
  if normalized = "" then none
  else
    let lowered := toAsciiLowercase normalized
    if lowered = "0" ∨ lowered = "1" ∨ lowered = "true" ∨ lowered = "false" then none
    else if normalized.data.all Char.isDigit then none
    else some normalized

/-! ### Path navigation and mutation -/

/-- Rust `vdf_find_object_value`: first case-insensitive key match at one
level. -/
def vdf_find_object_value (value : VdfValue) (key : String) : Option VdfValue :=
  match value with
  | .Text _ => none
  | .Object entries =>
      (entries.find? (fun entry => eq_ignore_ascii_case entry.1 key)).map
        (fun entry => entry.2)

/-- Whether a document value is an object. -/
def isObjectV : VdfValue → Bool
  | .Object _ => true
  | .Text _ => false

/-- The leaf-narrowing step of `vdf_get_or_insert_object_mut`: a text leaf
is replaced by an empty object. -/
def vdf_narrow : VdfValue → VdfValue
  | .Text _ => .Object []
  | v => v

/-- The entry-list update underlying `vdf_get_or_insert_object_mut`: the
first case-insensitive match has its value narrowed to an object and then
mutated by `f` (the caller's use of the returned `&mut`); absent a match, a
fresh empty object is appended under `key` and mutated by `f`. -/
def vdf_update_entries (key : String) (f : VdfValue → VdfValue) :
    List (String × VdfValue) → List (String × VdfValue)
  | [] => [(key, f (.Object []))]
  | (k, v) :: rest =>
    if eq_ignore_ascii_case k key then (k, f (vdf_narrow v)) :: rest
    else (k, v) :: vdf_update_entries key f rest

/-- Rust `vdf_get_or_insert_object_mut`, rendered with the caller's
subsequent mutation of the returned reference as the continuation `f`:
a text value is first replaced with an empty object. -/
def vdf_get_or_insert_object_update (value : VdfValue) (key : String)
    (f : VdfValue → VdfValue) : VdfValue :=
  match value with
  | .Text _ => .Object (vdf_update_entries key f [])
  | .Object entries => .Object (vdf_update_entries key f entries)

/-- Rust `vdf_ensure_object_path_mut`, with the caller's mutation of the
returned reference as the continuation `f`. -/
def vdf_ensure_object_path_update (value : VdfValue) (path : List String)
    (f : VdfValue → VdfValue) : VdfValue :=
  match path with
  | [] => f value
  | key :: rest =>
      vdf_get_or_insert_object_update value key
        (fun child => vdf_ensure_object_path_update child rest f)

/-- The entry-list update underlying `vdf_set_text_entry`. -/
def vdf_set_text_entries (key text : String) :
    List (String × VdfValue) → List (String × VdfValue)
  | [] => [(key, .Text text)]
  | (k, v) :: rest =>
    if eq_ignore_ascii_case k key then (k, .Text text) :: rest
    else (k, v) :: vdf_set_text_entries key text rest

/-- Rust `vdf_set_text_entry`: replaces the first case-insensitive match
with a text leaf, or appends one; a text value is first replaced with an
empty object. -/
def vdf_set_text_entry (value : VdfValue) (key text : String) : VdfValue :=
  match value with
  | .Text _ => .Object (vdf_set_text_entries key text [])
  | .Object entries => .Object (vdf_set_text_entries key text entries)

/-- Rust `vdf_remove_entry`: deletes every case-insensitive match at this
level; a text value is left unchanged. -/
def vdf_remove_entry (value : VdfValue) (key : String) : VdfValue :=
  match value with
  | .Text _ => value
  | .Object entries =>
      .Object (entries.filter (fun entry => !eq_ignore_ascii_case entry.1 key))

/-- Read-only navigation along a key path by repeated first-match lookup. -/
def vdf_lookup_path (value : VdfValue) : List String → Option VdfValue
  | [] => some value
  | key :: rest =>
    match vdf_find_object_value value key with
    | none => none
    | some child => vdf_lookup_path child rest

/-! ### Line-oriented manifest and library-index scanning

The Rust code matches single lines against anchored regular expressions.
Each regex is rendered as a deterministic character-list matcher; since
every character class used (`\s`, `[^"]`, `[0-9]`) is disjoint from the
literal that follows it, greedy matching without backtracking is exact. -/

/-- Strips one trailing carriage return (the `\r\n` handling of
`str::lines`). -/
def stripCR (l : List Char) : List Char :=
  if l.getLast? = some '\r' then l.dropLast else l

/-- The split underlying `str::lines`: splits at newlines, dropping the
final empty segment produced by a trailing newline. -/
def splitLinesAux (cur : List Char) : List Char → List (List Char)
  | [] => if cur.isEmpty then [] else [cur]
  | c :: rest =>
    if c = '\n' then stripCR cur :: splitLinesAux [] rest
    else splitLinesAux (cur ++ [c]) rest

/-- Rust `str::lines`. -/
def rust_lines (s : String) : List String :=
  (splitLinesAux [] s.data).map String.mk

/-- Rust `decode_steam_vdf_value`, unescaping backslash sequences. -/
def decodeVdfChars : List Char → List Char
  | [] => []
  | c :: rest =>
    if c ≠ '\\' then c :: decodeVdfChars rest
    else match rest with
      | [] => []
      | e :: rest2 =>
        (if e = '\\' then '\\'
         else if e = '"' then '"'
         else if e = 't' then '\t'
         else if e = 'n' then '\n'
         else if e = 'r' then '\r'
         else e) :: decodeVdfChars rest2

/-- Rust `decode_steam_vdf_value`. -/
def decode_steam_vdf_value (value : String) : String :=
  String.mk (decodeVdfChars value.data)

/-- The `\s*"([^"]…)"` tail of the line regexes: optional whitespace, then
a quoted run of non-quote characters with a mandatory closing quote.
`allow_empty` distinguishes `([^"]*)` from `([^"]+)`. -/
def match_quoted_value_tail (allow_empty : Bool) (cs : List Char) : Option String :=
  match cs.dropWhile rustIsWhitespace with
  | '"' :: cs5 =>
    let value := cs5.takeWhile (fun c => c ≠ '"')
    if !allow_empty && value.isEmpty then none
    else
      match cs5.dropWhile (fun c => c ≠ '"') with
      | '"' :: _ => some (String.mk value)
      | _ => none
  | _ => none

/-- The anchored regex `^\s*"([^"]+)"\s*"([^"]*)"` of
`parse_steam_manifest_string_field`: returns the captured key and value. -/
def match_manifest_line (line : List Char) : Option (String × String) :=
  match line.dropWhile rustIsWhitespace with
  | '"' :: cs1 =>
    let key := cs1.takeWhile (fun c => c ≠ '"')
    if key.isEmpty then none
    else
      match cs1.dropWhile (fun c => c ≠ '"') with
      | '"' :: cs3 =>
        (match_quoted_value_tail true cs3).map (fun value => (String.mk key, value))
      | _ => none
  | _ => none

/-- An anchored regex `^\s*"<literal>"\s*"([^"]+)"` with a fixed key
(used with `path`, `SizeOnDisk`, `installdir`): returns the captured
value. -/
def match_literal_key_line (key_literal : List Char) (line : List Char) : Option String :=
  match line.dropWhile rustIsWhitespace with
  | '"' :: cs1 =>
    if key_literal.isPrefixOf cs1 then
      match cs1.drop key_literal.length with
      | '"' :: cs3 => match_quoted_value_tail false cs3
      | _ => none
    else none
  | _ => none

/-- The anchored legacy regex `^\s*"[0-9]+"\s*"([^"]+)"` of
`parse_steam_libraryfolder_paths`. -/
def match_numeric_key_line (line : List Char) : Option String :=
  match line.dropWhile rustIsWhitespace with
  | '"' :: cs1 =>
    let digits := cs1.takeWhile Char.isDigit
    if digits.isEmpty then none
    else
      match cs1.drop digits.length with
      | '"' :: cs3 => match_quoted_value_tail false cs3
      | _ => none
  | _ => none

/-! ### Manifest interpreter -/

/-- The per-line loop of `parse_steam_manifest_string_field`: the first
line whose captured key matches the field case-insensitively decides the
result; an empty-after-trim value on that line yields `none` outright. -/
def scan_string_field (normalized_field_name : String) : List String → Option String
  | [] => none
  | line :: rest =>
    match match_manifest_line line.data with
    | none => scan_string_field normalized_field_name rest
    | some (raw_key, raw_value) =>
      if eq_ignore_ascii_case raw_key normalized_field_name then
        let trimmed_value := rustTrim (decode_steam_vdf_value raw_value)
        if trimmed_value = "" then none else some trimmed_value
      else scan_string_field normalized_field_name rest

/-- Rust `parse_steam_manifest_string_field`. -/
def parse_steam_manifest_string_field (manifest_contents field_name : String) :
    Option String :=
  let normalized_field_name := rustTrim field_name
  if normalized_field_name = "" then none
  else scan_string_field normalized_field_name (rust_lines manifest_contents)

/-- Rust `parse_steam_manifest_u64_field`. -/
def parse_steam_manifest_u64_field (manifest_contents field_name : String) :
    Option Nat :=
  (parse_steam_manifest_string_field manifest_contents field_name).bind rust_parse_u64

/-- The per-line loop of `parse_steam_manifest_size_on_disk_bytes`: unlike
the generic field scan, an empty or unparseable value merely skips to the
next matching line. -/
def scan_size_on_disk : List String → Option Nat
  | [] => none
  | line :: rest =>
    match match_literal_key_line "SizeOnDisk".data line.data with
    | none => scan_size_on_disk rest
    | some raw_size =>
      let trimmed_size := rustTrim (decode_steam_vdf_value raw_size)
      if trimmed_size = "" then scan_size_on_disk rest
      else
        match rust_parse_u64 trimmed_size with
        | some parsed_size => some parsed_size
        | none => scan_size_on_disk rest

/-- Rust `parse_steam_manifest_size_on_disk_bytes` (case-sensitive
`"SizeOnDisk"` literal in its regex). -/
def parse_steam_manifest_size_on_disk_bytes (manifest_contents : String) : Option Nat :=
  scan_size_on_disk (rust_lines manifest_contents)

/-! ### Library-folders index parsing -/

/-- Decoding, trimming and emptiness filtering applied to each captured
library path before deduplication. -/
def clean_library_path (raw : String) : Option String :=
  let trimmed := rustTrim (decode_steam_vdf_value raw)
  if trimmed = "" then none else some trimmed

/-- One step of the order-preserving deduplication (`Vec` plus `HashSet`
of already-seen paths). -/
def push_dedup (st : List String × List String) (p : String) : List String × List String :=
  if p ∈ st.2 then st else (st.1 ++ [p], st.2 ++ [p])

/-- Rust `parse_steam_libraryfolder_paths`: scan all lines for modern
`"path"`-keyed entries; if none produced a path, rescan for legacy
bare-numeric-key entries, sharing the seen-set. -/
def parse_steam_libraryfolder_paths (contents : String) : List String :=
  let lines := rust_lines contents
  let st := lines.foldl (fun st line =>
    match (match_literal_key_line "path".data line.data).bind clean_library_path with
    | none => st
    | some p => push_dedup st p) ([], [])
  if st.1 ≠ [] then st.1
  else
    let st2 := lines.foldl (fun st line =>
      match (match_numeric_key_line line.data).bind clean_library_path with
      | none => st
      | some p => push_dedup st p) st
    st2.1

/-! ### Collections extractor -/

mutual
/-- Rust `vdf_collect_objects_by_key`: every nested object at any depth
whose container key matches case-insensitively, in document order (an
enclosing match precedes matches inside it). -/
def vdf_collect_objects_by_key (value : VdfValue) (key : String) : List VdfValue :=
  match value with
  | .Text _ => []
  | .Object entries => vdf_collect_objects_by_key_entries entries key

/-- The entry loop of `vdf_collect_objects_by_key`. -/
def vdf_collect_objects_by_key_entries :
    List (String × VdfValue) → String → List VdfValue
  | [], _ => []
  | (k, v) :: rest, key =>
    (if eq_ignore_ascii_case k key ∧ isObjectV v then [v] else []) ++
      vdf_collect_objects_by_key v key ++ vdf_collect_objects_by_key_entries rest key
end

mutual
/-- Rust `vdf_collect_text_leaves`. -/
def vdf_collect_text_leaves : VdfValue → List String
  | .Text text => [text]
  | .Object entries => vdf_collect_text_leaves_entries entries

/-- The entry loop of `vdf_collect_text_leaves`. -/
def vdf_collect_text_leaves_entries : List (String × VdfValue) → List String
  | [] => []
  | (_, v) :: rest => vdf_collect_text_leaves v ++ vdf_collect_text_leaves_entries rest
end

/-- Insertion into a `HashSet` of names, represented as a duplicate-free
list in insertion order. -/
def set_insert (l : List String) (x : String) : List String :=
  if x ∈ l then l else l ++ [x]

/-- `HashSet::extend`. -/
def set_extend (l xs : List String) : List String :=
  xs.foldl set_insert l

/-- `HashMap::entry(..).or_insert_with(HashSet::new).extend(..)` over an
association-list rendering of the collections map. -/
def map_extend : List (String × List String) → String → List String →
    List (String × List String)
  | [], app_id, names => [(app_id, set_extend [] names)]
  | (k, v) :: rest, app_id, names =>
    if k = app_id then (k, set_extend v names) :: rest
    else (k, v) :: map_extend rest app_id names

/-- The per-tag-entry collection-name accumulation of
`parse_steam_collections_from_vdf`: the tag key itself and every text leaf
under the tag value are filtered through `parse_collection_name_candidate`. -/
def collect_tag_collection_names (tag_entries : List (String × VdfValue)) : List String :=
  tag_entries.foldl (fun acc tag =>
    let acc := match parse_collection_name_candidate tag.1 with
      | some name => set_insert acc name
      | none => acc
    (vdf_collect_text_leaves tag.2).foldl (fun a candidate =>
      match parse_collection_name_candidate candidate with
      | some name => set_insert a name
      | none => a) acc) []

/-- The per-app-entry step of `parse_steam_collections_from_vdf`: skips
non-numeric app keys and entries without a `tags` object; otherwise merges
the accepted names into the map under the normalized app id. -/
def collections_insert_app (acc : List (String × List String))
    (app_id : String) (app_value : VdfValue) : List (String × List String) :=
  let normalized_app_id :=
    trim_matches (fun c => rustIsWhitespace c || c = '\x00') app_id
  if normalized_app_id = "" ∨ ¬ normalized_app_id.data.all Char.isDigit then acc
  else
    match vdf_find_object_value app_value "tags" with
    | some (.Object tag_entries) =>
      let collection_names := collect_tag_collection_names tag_entries
      if collection_names = [] then acc
      else map_extend acc normalized_app_id collection_names
    | _ => acc

/-- Rust `parse_steam_collections_from_vdf`. -/
def parse_steam_collections_from_vdf (contents : String) :
    Except String (List (String × List String)) :=
  match parse_vdf_document contents with
  | .error e => .error e
  | .ok root_value =>
    .ok ((vdf_collect_objects_by_key root_value "apps").foldl (fun acc apps_value =>
      match apps_value with
      | .Object app_entries =>
          app_entries.foldl (fun a entry => collections_insert_app a entry.1 entry.2) acc
      | .Text _ => acc) [])

/-! ### Settings editor -/

structure GameGeneralSettingsPayload where
  language : String
  launch_options : String
  steam_overlay_enabled : Bool

structure GameCompatibilitySettingsPayload where
  force_steam_play_compatibility_tool : Bool
  steam_play_compatibility_tool : String

structure GameUpdatesSettingsPayload where
  automatic_updates_mode : String
  background_downloads_mode : String

structure GameControllerSettingsPayload where
  steam_input_override : String

structure GameVersionsBetasSettingsPayload where
  private_access_code : String
  selected_version_id : String

structure GamePropertiesSettingsPayload where
  general : GameGeneralSettingsPayload
  compatibility : GameCompatibilitySettingsPayload
  updates : GameUpdatesSettingsPayload
  controller : GameControllerSettingsPayload
  game_versions_betas : GameVersionsBetasSettingsPayload

def STEAM_BUILTIN_COMPATIBILITY_TOOLS : List (String × String) :=
  [ ("proton_experimental", "Proton Experimental"),
    ("proton_hotfix", "Proton Hotfix"),
    ("proton_9", "Proton 9.0-4"),
    ("proton_8", "Proton 8.0-5"),
    ("proton_7", "Proton 7.0-6"),
    ("sniper", "Steam Linux Runtime 3.0 (sniper)"),
    ("soldier", "Steam Linux Runtime 2.0 (soldier)") ]

/-- Rust `map_compatibility_tool_label_to_steam_name`. -/
def map_compatibility_tool_label_to_steam_name (label : String) : String :=
  let trimmed_label := rustTrim label
  if trimmed_label = "" then ""
  else
    let normalized := toAsciiLowercase trimmed_label
    match STEAM_BUILTIN_COMPATIBILITY_TOOLS.find? (fun tool =>
        normalized = toAsciiLowercase tool.1 || normalized = toAsciiLowercase tool.2) with
    | some tool => tool.1
    | none => trimmed_label

/-- The launch-options block of `apply_steam_game_properties_settings`:
`launch_options` is the already-trimmed payload string. -/
def launch_options_edit (launch_options : String) (o : VdfValue) : VdfValue :=
  if launch_options = "" then vdf_remove_entry o "LaunchOptions"
  else vdf_set_text_entry o "LaunchOptions" launch_options

/-- The automatic-updates block of `apply_steam_game_properties_settings`. -/
def auto_update_edit (mode : String) (o : VdfValue) : VdfValue :=
  match mode with
  | "use-global-setting" => vdf_remove_entry o "AutoUpdateBehavior"
  | "wait-until-launch" => vdf_set_text_entry o "AutoUpdateBehavior" "1"
  | "let-steam-decide" => vdf_set_text_entry o "AutoUpdateBehavior" "0"
  | "immediately-download" => vdf_set_text_entry o "AutoUpdateBehavior" "2"
  | _ => o

/-- The background-downloads block of `apply_steam_game_properties_settings`. -/
def background_downloads_edit (mode : String) (o : VdfValue) : VdfValue :=
  match mode with
  | "pause-while-playing-global" => vdf_remove_entry o "AllowDownloadsWhileRunning"
  | "always-allow" => vdf_set_text_entry o "AllowDownloadsWhileRunning" "1"
  | "never-allow" => vdf_set_text_entry o "AllowDownloadsWhileRunning" "0"
  | _ => o

/-- The Steam-Input block of `apply_steam_game_properties_settings`. -/
def steam_input_edit (mode : String) (o : VdfValue) : VdfValue :=
  match mode with
  | "use-default-settings" => vdf_remove_entry o "SteamInput"
  | "disable-steam-input" => vdf_set_text_entry o "SteamInput" "0"
  | "enable-steam-input" => vdf_set_text_entry o "SteamInput" "1"
  | _ => o

/-- The launch-options / update-mode / background-downloads / controller
edits of `apply_steam_game_properties_settings`, applied in source order to
the per-app settings object. -/
def apply_app_settings_edits (settings : GamePropertiesSettingsPayload)
    (o : VdfValue) : VdfValue :=
  steam_input_edit settings.controller.steam_input_override
    (background_downloads_edit settings.updates.background_downloads_mode
      (auto_update_edit settings.updates.automatic_updates_mode
        (launch_options_edit (rustTrim settings.general.launch_options) o)))

/-- One edit step of the settings editor, as data: `some t` sets the key to
the text `t`, `none` removes the key. -/
def vdf_apply_edit (x : VdfValue) : String × Option String → VdfValue
  | (k, some t) => vdf_set_text_entry x k t
  | (k, none) => vdf_remove_entry x k

/-- A sequence of edit steps applied left to right. -/
def vdf_apply_edits (ops : List (String × Option String)) (x : VdfValue) : VdfValue :=
  ops.foldl vdf_apply_edit x

/-- The edit step performed by `launch_options_edit`, as data. -/
def launch_options_edit_ops (launch_options : String) : List (String × Option String) :=
  if launch_options = "" then [("LaunchOptions", none)]
  else [("LaunchOptions", some launch_options)]

/-- The edit step performed by `auto_update_edit`, as data. -/
def auto_update_edit_ops (mode : String) : List (String × Option String) :=
  match mode with
  | "use-global-setting" => [("AutoUpdateBehavior", none)]
  | "wait-until-launch" => [("AutoUpdateBehavior", some "1")]
  | "let-steam-decide" => [("AutoUpdateBehavior", some "0")]
  | "immediately-download" => [("AutoUpdateBehavior", some "2")]
  | _ => []

/-- The edit step performed by `background_downloads_edit`, as data. -/
def background_downloads_edit_ops (mode : String) : List (String × Option String) :=
  match mode with
  | "pause-while-playing-global" => [("AllowDownloadsWhileRunning", none)]
  | "always-allow" => [("AllowDownloadsWhileRunning", some "1")]
  | "never-allow" => [("AllowDownloadsWhileRunning", some "0")]
  | _ => []

/-- The edit step performed by `steam_input_edit`, as data. -/
def steam_input_edit_ops (mode : String) : List (String × Option String) :=
  match mode with
  | "use-default-settings" => [("SteamInput", none)]
  | "disable-steam-input" => [("SteamInput", some "0")]
  | "enable-steam-input" => [("SteamInput", some "1")]
  | _ => []

/-- The whole edit sequence performed by `apply_app_settings_edits`, as
data. -/
def game_settings_edit_ops (settings : GamePropertiesSettingsPayload) :
    List (String × Option String) :=
  launch_options_edit_ops (rustTrim settings.general.launch_options) ++
    auto_update_edit_ops settings.updates.automatic_updates_mode ++
    background_downloads_edit_ops settings.updates.background_downloads_mode ++
    steam_input_edit_ops settings.controller.steam_input_override

/-- The compatibility-tool mapping edit of
`apply_steam_game_properties_settings`, applied to the `CompatToolMapping`
object. -/
def apply_compat_mapping_edits (settings : GamePropertiesSettingsPayload)
    (app_id_key : String) (compat_mapping_object : VdfValue) : VdfValue :=
  if settings.compatibility.force_steam_play_compatibility_tool then
    let compat_name := map_compatibility_tool_label_to_steam_name
      settings.compatibility.steam_play_compatibility_tool
    if compat_name = "" then
      vdf_remove_entry
        (vdf_ensure_object_path_update compat_mapping_object [app_id_key] (fun e => e))
        app_id_key
    else
      vdf_ensure_object_path_update compat_mapping_object [app_id_key] (fun entry =>
        vdf_set_text_entry
          (vdf_set_text_entry (vdf_set_text_entry entry "name" compat_name) "config" "")
          "priority" "250")
  else vdf_remove_entry compat_mapping_object app_id_key

/-- The in-memory tree transformation of
`apply_steam_game_properties_settings` (file input/output and logging
stripped): ensure the per-app settings object, apply the leaf edits, then
ensure the compatibility-mapping object and apply its edit. -/
def apply_steam_game_properties_settings (settings : GamePropertiesSettingsPayload)
    (app_id_key : String) (localconfig_value : VdfValue) : VdfValue :=
  let v1 := vdf_ensure_object_path_update localconfig_value
    ["UserLocalConfigStore", "Software", "Valve", "Steam", "apps"]
    (fun apps_object =>
      vdf_ensure_object_path_update apps_object [app_id_key]
        (apply_app_settings_edits settings))
  vdf_ensure_object_path_update v1
    ["UserLocalConfigStore", "Software", "Valve", "Steam", "CompatToolMapping"]
    (apply_compat_mapping_edits settings app_id_key)

/-! ### Spec-side definitions used by the claim theorems -/

/-- Whether an app entry has a `tags` object. -/
def has_tags_object (app_value : VdfValue) : Bool :=
  match vdf_find_object_value app_value "tags" with
  | some (.Object _) => true
  | _ => false

/-- Two manifest texts with the same line structure whose matched lines
carry identical values and keys equal up to ASCII case. -/
def manifest_lines_key_equiv (c1 c2 : String) : Prop :=
  List.Forall₂ (fun line1 line2 =>
    (match_manifest_line line1.data = none ∧ match_manifest_line line2.data = none) ∨
    (∃ k1 k2 v, match_manifest_line line1.data = some (k1, v) ∧
      match_manifest_line line2.data = some (k2, v) ∧ eq_ignore_ascii_case k1 k2 = true))
    (rust_lines c1) (rust_lines c2)

/-- The raw value captured on the first line whose key matches the
requested field case-insensitively. -/
def spec_first_field_value (field_name : String) (lines : List String) : Option String :=
  (lines.filterMap (fun line =>
    match match_manifest_line line.data with
    | some kv => if eq_ignore_ascii_case kv.1 (rustTrim field_name) then some kv.2 else none
    | none => none)).head?

/-- Order-preserving deduplication of a path list. -/
def dedup_paths (ps : List String) : List String :=
  (ps.foldl push_dedup ([], [])).1

/-- The deduplicated paths produced by the modern `"path"`-keyed lines. -/
def modern_library_paths (contents : String) : List String :=
  dedup_paths ((rust_lines contents).filterMap (fun line =>
    (match_literal_key_line "path".data line.data).bind clean_library_path))

/-- The deduplicated paths produced by the legacy bare-numeric-key lines. -/
def legacy_library_paths (contents : String) : List String :=
  dedup_paths ((rust_lines contents).filterMap (fun line =>
    (match_numeric_key_line line.data).bind clean_library_path))

/-- One index-file line `"key" "value"`. -/
def mk_library_line (key value : String) : String :=
  "\"" ++ key ++ "\" \"" ++ value ++ "\""

/-- Newline join for constructing index files. -/
def join_newline : List (List Char) → List Char
  | [] => []
  | [l] => l
  | l :: ls => l ++ '\n' :: join_newline ls

/-- An index file built from `"key" "value"` entry lines. -/
def mk_library_file (entries : List (String × String)) : String :=
  String.mk (join_newline (entries.map (fun e => (mk_library_line e.1 e.2).data)))

/-- A string without embedded NUL characters (quoted tokens can never
contain one: the tokenizer discards NUL bytes). -/
def nulFreeStr (s : String) : Bool :=
  s.data.all (fun c => c ≠ '\x00')

/-- Every text token of the stream is NUL-free. -/
def token_nul_free : VdfToken → Bool
  | .Text s => nulFreeStr s
  | _ => true

mutual
/-- Every key and text leaf of the tree is NUL-free. -/
def value_nul_free : VdfValue → Bool
  | .Text s => nulFreeStr s
  | .Object entries => entries_nul_free entries

/-- The entry-list form of `value_nul_free`. -/
def entries_nul_free : List (String × VdfValue) → Bool
  | [] => true
  | (k, v) :: rest => nulFreeStr k && value_nul_free v && entries_nul_free rest
end

mutual
/-- The token stream a serialized value tokenizes back to. -/
def value_tokens : VdfValue → List VdfToken
  | .Text t => [.Text t]
  | .Object es => .OpenBrace :: (entries_tokens es ++ [.CloseBrace])

/-- The token stream a serialized entry list tokenizes back to. -/
def entries_tokens : List (String × VdfValue) → List VdfToken
  | [] => []
  | (k, v) :: rest => .Text k :: (value_tokens v ++ entries_tokens rest)
end

/-- The spec's malformedness conditions on a token stream, scanned in
key position with the current nesting depth: an open-brace where a key is
expected fails; a key followed by end of input or a close-brace fails; a
close-brace in key position ends the current object — at top level the
stream is then malformed exactly when tokens remain. -/
def spec_malformed_tokens : List VdfToken → Nat → Bool
  | [], _ => false
  | .OpenBrace :: _, _ => true
  | .CloseBrace :: rest, depth =>
    if depth = 0 then !rest.isEmpty else spec_malformed_tokens rest (depth - 1)
  | .Text _ :: rest, depth =>
    match rest with
    | [] => true
    | .CloseBrace :: _ => true
    | .Text _ :: rest2 => spec_malformed_tokens rest2 depth
    | .OpenBrace :: rest2 => spec_malformed_tokens rest2 (depth + 1)

/-! ## Shared lemmas -/

theorem eq_ignore_ascii_case_refl (s : String) : eq_ignore_ascii_case s s = true := by
  simp [eq_ignore_ascii_case]

theorem eq_ignore_ascii_case_congr_left {k1 k2 : String}
    (h : eq_ignore_ascii_case k1 k2 = true) (f : String) :
    eq_ignore_ascii_case k1 f = eq_ignore_ascii_case k2 f := by
  simp only [eq_ignore_ascii_case, decide_eq_true_eq] at h ⊢
  rw [h]

theorem isObjectV_narrow (v : VdfValue) : isObjectV (vdf_narrow v) = true := by
  cases v <;> rfl

theorem vdf_narrow_of_object {v : VdfValue} (h : isObjectV v = true) :
    vdf_narrow v = v := by
  cases v
  · rfl
  · simp [isObjectV] at h

/-! ## Claim C2: the install/download state machine -/

/-- Claim C2: for every 64-bit state-flags value and every pair of
booleans, `infer_steam_download_state` returns exactly the label of the
first matching rule of the spec's priority list, and in particular
`Paused ||| Downloading` yields `Paused`. -/
theorem infer_steam_download_state_matches_priority_list :
    (∀ state_flags : Nat, state_flags < 2 ^ 64 →
      ∀ has_progress has_active_download_directory : Bool,
        infer_steam_download_state state_flags has_progress has_active_download_directory =
          spec_download_state state_flags has_progress has_active_download_directory) ∧
    (∀ has_progress has_active_download_directory : Bool,
      infer_steam_download_state
        (STEAM_APP_STATE_UPDATE_PAUSED ||| STEAM_APP_STATE_DOWNLOADING)
        has_progress has_active_download_directory = some "Paused") := by
  constructor
  · intro state_flags _ hp had
    unfold infer_steam_download_state spec_download_state spec_download_state_rules
    by_cases h1 : state_flags &&& STEAM_APP_STATE_UPDATE_PAUSED ≠ 0
    · simp [h1, List.find?]
    · by_cases h2 : state_flags &&& STEAM_APP_STATE_PREALLOCATING ≠ 0
      · simp [h1, h2, List.find?]
      · by_cases h3 : state_flags &&& STEAM_APP_STATE_DOWNLOADING ≠ 0
        · simp [h1, h2, h3, List.find?]
        · by_cases h4 : state_flags &&& STEAM_APP_STATE_UPDATE_RUNNING ≠ 0 ∨
              state_flags &&& STEAM_APP_STATE_UPDATE_STARTED ≠ 0
          · cases hp <;> cases had <;> simp_all [List.find?]
          · by_cases h5 : state_flags &&& STEAM_APP_STATE_STAGING ≠ 0
            · simp [h1, h2, h3, h4, h5, List.find?]
            · by_cases h6 : state_flags &&& STEAM_APP_STATE_COMMITTING ≠ 0 ∨
                  state_flags &&& STEAM_APP_STATE_ADDING_FILES ≠ 0
              · simp [h1, h2, h3, h4, h5, h6, List.find?]
              · by_cases h7 : state_flags &&& STEAM_APP_STATE_VALIDATING ≠ 0
                · simp [h1, h2, h3, h4, h5, h6, h7, List.find?]
                · by_cases hA : state_flags &&& STEAM_APP_STATE_UPDATE_REQUIRED = 0 <;>
                    by_cases hB : state_flags &&& STEAM_APP_STATE_FULLY_INSTALLED = 0 <;>
                      (cases hp <;> cases had <;> simp_all [List.find?])
  · intro hp had
    cases hp <;> cases had <;> rfl

/-- Witness for C2 at a concrete flags value (`Paused ||| Downloading`,
which is below `2 ^ 64`). -/
theorem infer_steam_download_state_matches_priority_list_witness :
    infer_steam_download_state 1049088 false true =
      spec_download_state 1049088 false true :=
  infer_steam_download_state_matches_priority_list.1 1049088 (by norm_num) false true

/-! ## Claim C4: the topology resolver and the root override -/

/-- Claim C4 counterexample: an explicit override is returned even when
its `steamapps` subdirectory does not exist (the probe function answers
`false` for every path), so the override is not validated like probed
candidates are. -/
theorem resolve_steam_root_path_override_unvalidated :
    resolve_steam_root_path (fun _ => false) [] (some "/opt/custom") = some "/opt/custom" ∧
    (fun _ => false : String → Bool) (pathJoin "/opt/custom" "steamapps") = false :=
  ⟨rfl, rfl⟩

/-- Claim C4 amended: a root returned by the resolver is either the
trimmed non-empty explicit override, taken without any filesystem
validation, or a probed candidate whose library-index (`steamapps`)
subdirectory exists. -/
theorem resolve_steam_root_path_amended :
    ∀ (is_dir : String → Bool) (candidates : List String) (o : Option String) (r : String),
      resolve_steam_root_path is_dir candidates o = some r →
      (∃ s, o = some s ∧ rustTrim s = r ∧ r ≠ "") ∨
      (r ∈ candidates ∧ is_dir (pathJoin r "steamapps") = true) := by
  intro is_dir candidates o r h
  unfold resolve_steam_root_path at h
  cases o with
  | none =>
    right
    replace h : List.find? (fun candidate => is_dir (pathJoin candidate "steamapps"))
        candidates = some r := h
    exact ⟨List.mem_of_find?_eq_some h, by simpa using List.find?_some h⟩
  | some s =>
    simp only [] at h
    by_cases hs : rustTrim s = ""
    · rw [if_neg (by simp [hs])] at h
      right
      exact ⟨List.mem_of_find?_eq_some h, by simpa using List.find?_some h⟩
    · left
      rw [if_pos hs] at h
      cases h
      exact ⟨s, rfl, rfl, hs⟩

/-- Witness for C4 amended: a concrete override with surrounding
whitespace resolves to its trimmed form. -/
theorem resolve_steam_root_path_amended_witness :
    (∃ s, (some " /opt/custom " : Option String) = some s ∧
        rustTrim s = "/opt/custom" ∧ "/opt/custom" ≠ "") ∨
    ("/opt/custom" ∈ ([] : List String) ∧
        (fun _ => false : String → Bool) (pathJoin "/opt/custom" "steamapps") = true) :=
  resolve_steam_root_path_amended (fun _ => false) [] (some " /opt/custom ")
    "/opt/custom" rfl

/-! ## Claim C7: collection-name filtering -/

/-- Claim C7 counterexample: `"TRUE"` is rejected by the code although it
is non-empty after cleanup, is not literally one of the noise tokens
`"0"`, `"1"`, `"true"`, `"false"`, and is not all digits — the noise-token
comparison is performed on the lowercased string, not literally. -/
theorem parse_collection_name_candidate_rejects_uppercase_noise :
    parse_collection_name_candidate "TRUE" = none ∧
    rustTrim (String.mk ("TRUE".data.filter (fun c => c ≠ '\x00'))) = "TRUE" ∧
    ("TRUE" : String) ≠ "0" ∧ ("TRUE" : String) ≠ "1" ∧ ("TRUE" : String) ≠ "true" ∧
    ("TRUE" : String) ≠ "false" ∧ ¬ "TRUE".data.all Char.isDigit = true := by
  refine ⟨by decide, by decide, by decide, by decide, by decide, by decide, by decide⟩

/-- Claim C7 amended: a candidate is accepted iff, after removing NUL
characters and trimming whitespace, it is non-empty, its ASCII-lowercased
form is not one of the noise tokens `"0"`, `"1"`, `"true"`, `"false"`, and
it is not composed entirely of ASCII digits; and an app entry without a
`tags` object contributes nothing to the collections map. -/
theorem parse_collection_name_candidate_amended :
    (∀ raw_value : String,
      (parse_collection_name_candidate raw_value).isSome = true ↔
        (rustTrim (String.mk (raw_value.data.filter (fun c => c ≠ '\x00'))) ≠ "" ∧
         toAsciiLowercase (rustTrim (String.mk (raw_value.data.filter (fun c => c ≠ '\x00')))) ∉
           (["0", "1", "true", "false"] : List String) ∧
         ¬ (rustTrim (String.mk (raw_value.data.filter (fun c => c ≠ '\x00')))).data.all
             Char.isDigit = true)) ∧
    (∀ (acc : List (String × List String)) (app_id : String) (app_value : VdfValue),
      has_tags_object app_value = false →
      collections_insert_app acc app_id app_value = acc) := by
  constructor
  · intro raw_value
    simp only [parse_collection_name_candidate]
    set n := rustTrim (String.mk (raw_value.data.filter (fun c => c ≠ '\x00')))
    by_cases h1 : n = ""
    · rw [if_pos h1]
      simp [h1]
    · rw [if_neg h1]
      by_cases h2 : toAsciiLowercase n = "0" ∨ toAsciiLowercase n = "1" ∨
          toAsciiLowercase n = "true" ∨ toAsciiLowercase n = "false"
      · rw [if_pos h2]
        simp only [Option.isSome_none, Bool.false_eq_true, false_iff, List.mem_cons,
          List.mem_singleton, List.not_mem_nil, or_false]
        tauto
      · rw [if_neg h2]
        by_cases h3 : (n.data.all Char.isDigit) = true
        · rw [if_pos h3]
          simp only [Option.isSome_none, Bool.false_eq_true, false_iff, List.mem_cons,
            List.mem_singleton, List.not_mem_nil, or_false]
          tauto
        · rw [if_neg h3]
          simp only [Option.isSome_some, true_iff, List.mem_cons,
            List.mem_singleton, List.not_mem_nil, or_false]
          tauto
  · intro acc app_id app_value h
    unfold collections_insert_app
    by_cases hid : trim_matches (fun c => rustIsWhitespace c || c = '\x00') app_id = "" ∨
        ¬ (trim_matches (fun c => rustIsWhitespace c || c = '\x00') app_id).data.all Char.isDigit
    · rw [if_pos hid]
    · rw [if_neg hid]
      unfold has_tags_object at h
      cases hfind : vdf_find_object_value app_value "tags" with
      | none => simp
      | some child =>
        cases child with
        | Object entries => rw [hfind] at h; simp at h
        | Text s => simp [hfind]

/-- Witness for C7 amended: `"Favorites"` is accepted and satisfies the
amended condition, and a concrete tag-less app entry contributes nothing. -/
theorem parse_collection_name_candidate_amended_witness :
    ((rustTrim (String.mk ("Favorites".data.filter (fun c => c ≠ '\x00'))) ≠ "" ∧
      toAsciiLowercase (rustTrim (String.mk ("Favorites".data.filter (fun c => c ≠ '\x00')))) ∉
        (["0", "1", "true", "false"] : List String) ∧
      ¬ (rustTrim (String.mk ("Favorites".data.filter (fun c => c ≠ '\x00')))).data.all
          Char.isDigit = true)) ∧
    collections_insert_app [] "440" (.Object [("name", .Text "x")]) = [] := by
  constructor
  · exact (parse_collection_name_candidate_amended.1 "Favorites").mp (by decide)
  · exact parse_collection_name_candidate_amended.2 [] "440"
      (.Object [("name", .Text "x")]) (by decide)

/-! ## Claim C3: case sensitivity of manifest field extraction -/

/-- Claim C3 counterexample: the `SizeOnDisk` scan uses a case-sensitive
literal in its regex, so a lowercase variant of the key in the manifest is
not found although the canonical casing is. -/
theorem parse_steam_manifest_size_on_disk_case_sensitive :
    parse_steam_manifest_size_on_disk_bytes "\"sizeondisk\"\t\"123\"" = none ∧
    parse_steam_manifest_size_on_disk_bytes "\"SizeOnDisk\"\t\"123\"" = some 123 :=
  ⟨by decide, by decide⟩

theorem scan_string_field_key_equiv (f : String) {l1 l2 : List String}
    (h : List.Forall₂ (fun line1 line2 =>
      (match_manifest_line line1.data = none ∧ match_manifest_line line2.data = none) ∨
      (∃ k1 k2 v, match_manifest_line line1.data = some (k1, v) ∧
        match_manifest_line line2.data = some (k2, v) ∧ eq_ignore_ascii_case k1 k2 = true))
      l1 l2) :
    scan_string_field f l1 = scan_string_field f l2 := by
  induction h with
  | nil => rfl
  | @cons a b l1' l2' hpair hrest ih =>
    rcases hpair with ⟨hn1, hn2⟩ | ⟨k1, k2, v, hs1, hs2, hk⟩
    · simp only [scan_string_field, hn1, hn2]
      exact ih
    · simp only [scan_string_field, hs1, hs2]
      rw [eq_ignore_ascii_case_congr_left hk f]
      by_cases hm : eq_ignore_ascii_case k2 f = true
      · simp [hm]
      · simp only [Bool.not_eq_true] at hm
        simp [hm, ih]

/-- Claim C3 amended: extraction through the generic single-field scan
(`StateFlags` and the byte counters) is invariant under re-casing the keys
inside the manifest text; `installdir` and `SizeOnDisk` use dedicated
case-sensitive patterns (see the counterexample). -/
theorem parse_steam_manifest_string_field_key_case_insensitive :
    ∀ c1 c2 : String, manifest_lines_key_equiv c1 c2 →
      ∀ field_name : String,
        parse_steam_manifest_string_field c1 field_name =
          parse_steam_manifest_string_field c2 field_name ∧
        parse_steam_manifest_u64_field c1 field_name =
          parse_steam_manifest_u64_field c2 field_name := by
  intro c1 c2 h field_name
  have hs : parse_steam_manifest_string_field c1 field_name =
      parse_steam_manifest_string_field c2 field_name := by
    unfold parse_steam_manifest_string_field
    by_cases hf : rustTrim field_name = ""
    · rw [if_pos hf, if_pos hf]
    · rw [if_neg hf, if_neg hf]
      exact scan_string_field_key_equiv _ h
  refine ⟨hs, ?_⟩
  unfold parse_steam_manifest_u64_field
  rw [hs]

/-- Witness for C3 amended: a lowercase `stateflags` manifest and the
canonical `StateFlags` manifest extract the same value. -/
theorem parse_steam_manifest_string_field_key_case_insensitive_witness :
    parse_steam_manifest_string_field "\"stateflags\"\t\"4\"" "StateFlags" =
      parse_steam_manifest_string_field "\"StateFlags\"\t\"4\"" "StateFlags" ∧
    parse_steam_manifest_u64_field "\"stateflags\"\t\"4\"" "StateFlags" =
      parse_steam_manifest_u64_field "\"StateFlags\"\t\"4\"" "StateFlags" := by
  have hequiv : manifest_lines_key_equiv "\"stateflags\"\t\"4\"" "\"StateFlags\"\t\"4\"" := by
    unfold manifest_lines_key_equiv
    have h1 : rust_lines "\"stateflags\"\t\"4\"" = ["\"stateflags\"\t\"4\""] := rfl
    have h2 : rust_lines "\"StateFlags\"\t\"4\"" = ["\"StateFlags\"\t\"4\""] := rfl
    rw [h1, h2]
    refine List.Forall₂.cons (Or.inr ?_) List.Forall₂.nil
    exact ⟨"stateflags", "StateFlags", "4", by decide, by decide, by decide⟩
  exact parse_steam_manifest_string_field_key_case_insensitive _ _ hequiv "StateFlags"

/-! ## Claim C10: the first matching manifest line decides -/

theorem scan_string_field_first_match (f : String) (lines : List String) :
    scan_string_field f lines =
      match (lines.filterMap (fun line =>
        match match_manifest_line line.data with
        | some kv => if eq_ignore_ascii_case kv.1 f then some kv.2 else none
        | none => none)).head? with
      | none => none
      | some raw =>
        if rustTrim (decode_steam_vdf_value raw) = "" then none
        else some (rustTrim (decode_steam_vdf_value raw)) := by
  induction lines with
  | nil => rfl
  | cons line rest ih =>
    cases hm : match_manifest_line line.data with
    | none =>
      simp only [scan_string_field, hm, List.filterMap_cons]
      exact ih
    | some kv =>
      obtain ⟨k, v⟩ := kv
      by_cases hk : eq_ignore_ascii_case k f = true
      · simp [scan_string_field, hm, List.filterMap_cons, hk]
      · simp only [Bool.not_eq_true] at hk
        simp only [scan_string_field, hm, List.filterMap_cons, hk, if_neg, Bool.false_eq_true,
          ite_false]
        exact ih

/-- Claim C10: in the manifest single-field scan the first line whose key
matches decides the result — an empty-after-trim value there yields
`none` regardless of later lines — and the numeric field is `none`
whenever the string field is. -/
theorem parse_steam_manifest_first_match_decides :
    (∀ manifest_contents field_name : String,
      parse_steam_manifest_string_field manifest_contents field_name =
        if rustTrim field_name = "" then none
        else
          match spec_first_field_value field_name (rust_lines manifest_contents) with
          | none => none
          | some raw =>
            if rustTrim (decode_steam_vdf_value raw) = "" then none
            else some (rustTrim (decode_steam_vdf_value raw))) ∧
    (∀ manifest_contents field_name : String,
      parse_steam_manifest_string_field manifest_contents field_name = none →
      parse_steam_manifest_u64_field manifest_contents field_name = none) := by
  constructor
  · intro mc f
    unfold parse_steam_manifest_string_field spec_first_field_value
    by_cases hf : rustTrim f = ""
    · rw [if_pos hf, if_pos hf]
    · rw [if_neg hf, if_neg hf]
      exact scan_string_field_first_match (rustTrim f) (rust_lines mc)
  · intro mc f h
    unfold parse_steam_manifest_u64_field
    rw [h]
    rfl

/-- Witness for C10: a manifest whose first `StateFlags` line is empty
reports the field absent, numerically too, despite a later non-empty
line. -/
theorem parse_steam_manifest_first_match_decides_witness :
    parse_steam_manifest_u64_field "\"StateFlags\"\t\"\"\n\"StateFlags\"\t\"4\"" "StateFlags" =
      none :=
  parse_steam_manifest_first_match_decides.2
    "\"StateFlags\"\t\"\"\n\"StateFlags\"\t\"4\"" "StateFlags" (by decide)

/-! ## Claim C9: ensure-path narrowing -/

theorem find?_update_entries (es : List (String × VdfValue)) (k : String)
    (f : VdfValue → VdfValue) :
    ∃ k0 u, isObjectV u = true ∧
      (vdf_update_entries k f es).find? (fun e => eq_ignore_ascii_case e.1 k) =
        some (k0, f u) := by
  induction es with
  | nil =>
    refine ⟨k, .Object [], rfl, ?_⟩
    simp [vdf_update_entries, List.find?_cons_of_pos, eq_ignore_ascii_case_refl]
  | cons e rest ih =>
    obtain ⟨k0, v⟩ := e
    by_cases hm : eq_ignore_ascii_case k0 k = true
    · refine ⟨k0, vdf_narrow v, isObjectV_narrow v, ?_⟩
      simp only [vdf_update_entries, hm, if_true]
      exact List.find?_cons_of_pos _ hm
    · obtain ⟨k1, u, hu, hfind⟩ := ih
      refine ⟨k1, u, hu, ?_⟩
      simp only [Bool.not_eq_true] at hm
      simp only [vdf_update_entries, hm, Bool.false_eq_true, if_false]
      rw [List.find?_cons_of_neg _ (by simp [hm])]
      exact hfind

theorem vdf_find_get_or_insert (v : VdfValue) (k : String) (f : VdfValue → VdfValue) :
    ∃ u, isObjectV u = true ∧
      vdf_find_object_value (vdf_get_or_insert_object_update v k f) k = some (f u) := by
  cases v with
  | Text s =>
    obtain ⟨k0, u, hu, hfind⟩ := find?_update_entries [] k f
    exact ⟨u, hu, by simp [vdf_get_or_insert_object_update, vdf_find_object_value, hfind]⟩
  | Object es =>
    obtain ⟨k0, u, hu, hfind⟩ := find?_update_entries es k f
    exact ⟨u, hu, by simp [vdf_get_or_insert_object_update, vdf_find_object_value, hfind]⟩

/-- Claim C9 counterexample: on the empty key path with a leaf root, the
ensure-path operation returns the tree unchanged, so the position at the
full (empty) path is the leaf itself, not an object. -/
theorem vdf_ensure_object_path_empty_path_leaf :
    vdf_ensure_object_path_update (.Text "x") [] (fun v => v) = .Text "x" ∧
    vdf_lookup_path (vdf_ensure_object_path_update (.Text "x") [] (fun v => v)) [] =
      some (.Text "x") ∧
    isObjectV (.Text "x") = false :=
  ⟨rfl, rfl, rfl⟩

/-- Claim C9 amended: for every tree and nonempty key path, ensure-path
creates missing intermediate objects and narrows leaves without error, and
the position at the full path afterwards holds an object; in particular a
key whose current value is a leaf is replaced by an empty object. -/
theorem vdf_ensure_object_path_amended :
    (∀ (t : VdfValue) (p : List String), p ≠ [] →
      ∃ es, vdf_lookup_path (vdf_ensure_object_path_update t p (fun v => v)) p =
        some (.Object es)) ∧
    (∀ (t : VdfValue) (k s : String),
      vdf_find_object_value t k = some (.Text s) →
      vdf_find_object_value (vdf_get_or_insert_object_update t k (fun v => v)) k =
        some (.Object [])) := by
  constructor
  · intro t p
    induction p generalizing t with
    | nil => intro h; exact absurd rfl h
    | cons k rest ih =>
      intro _
      obtain ⟨u, hu, hfind⟩ := vdf_find_get_or_insert t k
        (fun c => vdf_ensure_object_path_update c rest (fun v => v))
      simp only [vdf_ensure_object_path_update, vdf_lookup_path, hfind]
      cases rest with
      | nil =>
        cases u with
        | Object es => exact ⟨es, rfl⟩
        | Text s => simp [isObjectV] at hu
      | cons r rs => exact ih u (by simp)
  · intro t k s hfind
    cases t with
    | Text s2 => simp [vdf_find_object_value] at hfind
    | Object es =>
      simp only [vdf_find_object_value, Option.map_eq_some'] at hfind
      obtain ⟨⟨k0, v0⟩, hf, hv⟩ := hfind
      simp only at hv
      subst hv
      simp only [vdf_get_or_insert_object_update, vdf_find_object_value]
      induction es with
      | nil => simp [List.find?] at hf
      | cons e rest ih =>
        obtain ⟨k1, v1⟩ := e
        by_cases hm : eq_ignore_ascii_case k1 k = true
        · rw [List.find?_cons_of_pos rest
            (show (fun entry : String × VdfValue => eq_ignore_ascii_case entry.1 k) (k1, v1) =
              true from hm)] at hf
          simp only [Option.some.injEq, Prod.mk.injEq] at hf
          obtain ⟨hk0, hv⟩ := hf
          subst hv
          simp only [vdf_update_entries, hm, if_true, vdf_narrow]
          rw [List.find?_cons_of_pos rest
            (show (fun entry : String × VdfValue => eq_ignore_ascii_case entry.1 k)
              (k1, VdfValue.Object []) = true from hm)]
          rfl
        · rw [List.find?_cons_of_neg rest
            (show ¬ (fun entry : String × VdfValue => eq_ignore_ascii_case entry.1 k) (k1, v1) =
              true from by simpa using hm)] at hf
          have := ih hf
          simp only [Bool.not_eq_true] at hm
          simp only [vdf_update_entries, hm, Bool.false_eq_true, if_false]
          rw [List.find?_cons_of_neg (vdf_update_entries k (fun v => v) rest)
            (show ¬ (fun entry : String × VdfValue => eq_ignore_ascii_case entry.1 k) (k1, v1) =
              true from by simpa using hm)]
          simpa using this

/-- Witness for C9 amended at a concrete leaf root, nonempty path and
narrowed entry. -/
theorem vdf_ensure_object_path_amended_witness :
    (∃ es, vdf_lookup_path
      (vdf_ensure_object_path_update (.Text "leaf") ["a", "b"] (fun v => v)) ["a", "b"] =
        some (.Object es)) ∧
    vdf_find_object_value
      (vdf_get_or_insert_object_update (.Object [("K", .Text "s")]) "k" (fun v => v)) "k" =
        some (.Object []) := by
  constructor
  · exact vdf_ensure_object_path_amended.1 (.Text "leaf") ["a", "b"] (by simp)
  · exact vdf_ensure_object_path_amended.2 (.Object [("K", .Text "s")]) "k" "s" rfl

/-! ## Claim C6: modern and legacy library-folder index formats -/

theorem String.mk_data_eta (s : String) : String.mk s.data = s := rfl

theorem foldl_extract_eq_filterMap (extract : String → Option String) :
    ∀ (lines : List String) (st : List String × List String),
      lines.foldl (fun st line =>
        match extract line with
        | none => st
        | some p => push_dedup st p) st =
      (lines.filterMap extract).foldl push_dedup st := by
  intro lines
  induction lines with
  | nil => intro st; rfl
  | cons line rest ih =>
    intro st
    cases hx : extract line with
    | none => simp [List.filterMap_cons, hx, ih]
    | some p => simp [List.filterMap_cons, hx, ih]

theorem foldl_push_dedup_diag (ps : List String) :
    ∀ l : List String, ∃ r, ps.foldl push_dedup (l, l) = (r, r) := by
  induction ps with
  | nil => intro l; exact ⟨l, rfl⟩
  | cons p rest ih =>
    intro l
    by_cases hp : p ∈ l
    · simpa [push_dedup, hp] using ih l
    · simpa [push_dedup, hp] using ih (l ++ [p])

/-- The two-phase scan of `parse_steam_libraryfolder_paths` restated
through the modern/legacy decompositions. -/
theorem parse_steam_libraryfolder_paths_eq :
    ∀ contents : String,
      parse_steam_libraryfolder_paths contents =
        if modern_library_paths contents = [] then legacy_library_paths contents
        else modern_library_paths contents := by
  intro contents
  unfold parse_steam_libraryfolder_paths modern_library_paths legacy_library_paths dedup_paths
  dsimp only
  rw [foldl_extract_eq_filterMap, foldl_extract_eq_filterMap]
  obtain ⟨r, hr⟩ := foldl_push_dedup_diag
    ((rust_lines contents).filterMap (fun line =>
      (match_literal_key_line "path".data line.data).bind clean_library_path)) []
  rw [hr]
  by_cases hempty : r = []
  · subst hempty
    simp
  · simp [hempty]

theorem string_eq_empty_iff (s : String) : s = "" ↔ s.data = [] := by
  cases s
  simp [String.ext_iff]

theorem takeWhile_dropWhile_append (p : Char → Bool) (r0 : Char) (hr : p r0 = false) :
    ∀ (l rest : List Char), (∀ c ∈ l, p c = true) →
      (l ++ r0 :: rest).takeWhile p = l ∧ (l ++ r0 :: rest).dropWhile p = r0 :: rest := by
  intro l
  induction l with
  | nil => intro rest _; simp [List.takeWhile_cons, List.dropWhile_cons, hr]
  | cons c cs ih =>
    intro rest h
    have hc : p c = true := h c (by simp)
    have hrec := ih rest (fun x hx => h x (by simp [hx]))
    simp [List.takeWhile_cons, List.dropWhile_cons, hc, hrec.1, hrec.2]

theorem mk_library_line_data (key value : String) :
    (mk_library_line key value).data =
      '"' :: (key.data ++ '"' :: ' ' :: '"' :: (value.data ++ ['"'])) := by
  simp [mk_library_line, String.data_append]

theorem match_quoted_value_tail_mk (allow_empty : Bool) (value : String)
    (hv : ∀ c ∈ value.data, c ≠ '"') :
    match_quoted_value_tail allow_empty (' ' :: '"' :: (value.data ++ ['"'])) =
      if !allow_empty && value.data.isEmpty then none else some value := by
  have hsp : rustIsWhitespace ' ' = true := by decide
  have hq : rustIsWhitespace '"' = false := by decide
  have htd := takeWhile_dropWhile_append (fun c => decide (c ≠ '"')) '"'
    (by decide) value.data [] (fun c hc => by simpa using hv c hc)
  unfold match_quoted_value_tail
  simp only [List.dropWhile_cons, hsp, if_true, hq, Bool.false_eq_true, if_false]
  simp only [htd.1, htd.2]

theorem match_literal_key_line_mk_path (value : String)
    (hv : ∀ c ∈ value.data, c ≠ '"') :
    match_literal_key_line "path".data (mk_library_line "path" value).data =
      if value = "" then none else some value := by
  have hq : rustIsWhitespace '"' = false := by decide
  rw [mk_library_line_data]
  unfold match_literal_key_line
  simp only [List.dropWhile_cons, hq, Bool.false_eq_true, if_false]
  have hpre : "path".data.isPrefixOf ("path".data ++ '"' :: ' ' :: '"' :: (value.data ++ ['"'])) =
      true := by
    rw [List.isPrefixOf_iff_prefix]
    exact List.prefix_append _ _
  simp only [hpre, if_true, List.drop_left]
  rw [match_quoted_value_tail_mk false value hv]
  rcases eq_or_ne value "" with hval | hval
  · subst hval
    simp
  · simp [hval, (string_eq_empty_iff value).not.mp hval]

theorem match_numeric_key_line_mk (key value : String) (hk : key ≠ "")
    (hkd : key.data.all Char.isDigit = true) (hv : ∀ c ∈ value.data, c ≠ '"') :
    match_numeric_key_line (mk_library_line key value).data =
      if value = "" then none else some value := by
  have hq : rustIsWhitespace '"' = false := by decide
  rw [mk_library_line_data]
  unfold match_numeric_key_line
  simp only [List.dropWhile_cons, hq, Bool.false_eq_true, if_false]
  have htd := takeWhile_dropWhile_append Char.isDigit '"' (by decide) key.data
    (' ' :: '"' :: (value.data ++ ['"'])) (fun c hc => by
      simpa using List.all_eq_true.mp hkd c hc)
  rw [show key.data ++ '"' :: ' ' :: '"' :: (value.data ++ ['"']) =
    key.data ++ '"' :: (' ' :: '"' :: (value.data ++ ['"'])) from rfl] at htd ⊢
  simp only [htd.1]
  have hne : key.data.isEmpty = false := by
    cases hkd2 : key.data with
    | nil => exact absurd ((string_eq_empty_iff key).mpr hkd2) hk
    | cons c cs => rfl
  simp only [hne, Bool.false_eq_true, if_false, List.drop_left]
  rw [match_quoted_value_tail_mk false value hv]
  rcases eq_or_ne value "" with hval | hval
  · subst hval
    simp
  · simp [hval, (string_eq_empty_iff value).not.mp hval]

theorem match_literal_key_line_mk_path_on_numeric (key value : String) (hk : key ≠ "")
    (hkd : key.data.all Char.isDigit = true) :
    match_literal_key_line "path".data (mk_library_line key value).data = none := by
  have hq : rustIsWhitespace '"' = false := by decide
  rw [mk_library_line_data]
  unfold match_literal_key_line
  simp only [List.dropWhile_cons, hq, Bool.false_eq_true, if_false]
  have hpre : "path".data.isPrefixOf
      (key.data ++ '"' :: ' ' :: '"' :: (value.data ++ ['"'])) = false := by
    cases hkd2 : key.data with
    | nil => exact absurd ((string_eq_empty_iff key).mpr hkd2) hk
    | cons c cs =>
      have hcd : c.isDigit = true := by
        have := List.all_eq_true.mp hkd
        exact this c (by rw [hkd2]; simp)
      show List.isPrefixOf ('p' :: 'a' :: 't' :: 'h' :: []) (c :: (cs ++ _)) = false
      simp only [List.isPrefixOf_cons₂]
      by_cases hcp : ('p' : Char) = c
      · subst hcp
        simp [Char.isDigit] at hcd
      · simp [List.isPrefixOf, beq_eq_false_iff_ne, hcp]
  simp [hpre]

theorem match_numeric_key_line_mk_path (value : String) :
    match_numeric_key_line (mk_library_line "path" value).data = none := by
  have hq : rustIsWhitespace '"' = false := by decide
  rw [mk_library_line_data]
  unfold match_numeric_key_line
  simp only [List.dropWhile_cons, hq, Bool.false_eq_true, if_false]
  simp [List.takeWhile_cons, Char.isDigit]

theorem stripCR_of_getLast_ne (l : List Char) (h : l.getLast? ≠ some '\r') :
    stripCR l = l := by
  unfold stripCR
  rw [if_neg h]

theorem splitLinesAux_no_newline :
    ∀ (l cur : List Char), '\n' ∉ l →
      splitLinesAux cur l = if (cur ++ l).isEmpty then [] else [cur ++ l] := by
  intro l
  induction l with
  | nil => intro cur _; simp [splitLinesAux]
  | cons c cs ih =>
    intro cur h
    have hc : ¬ c = '\n' := fun hh => h (by simp [hh])
    simp only [splitLinesAux, hc, if_false]
    rw [ih (cur ++ [c]) (fun hm => h (by simp [hm]))]
    simp

theorem splitLinesAux_append_newline :
    ∀ (l cur rest : List Char), '\n' ∉ l →
      splitLinesAux cur (l ++ '\n' :: rest) =
        stripCR (cur ++ l) :: splitLinesAux [] rest := by
  intro l
  induction l with
  | nil => intro cur rest _; simp [splitLinesAux]
  | cons c cs ih =>
    intro cur rest h
    have hc : ¬ c = '\n' := fun hh => h (by simp [hh])
    simp only [List.cons_append, splitLinesAux, hc, if_false, List.append_eq]
    rw [ih (cur ++ [c]) rest (fun hm => h (by simp [hm]))]
    simp

theorem splitLinesAux_join (ls : List (List Char))
    (h : ∀ l ∈ ls, l ≠ [] ∧ '\n' ∉ l ∧ l.getLast? ≠ some '\r') :
    splitLinesAux [] (join_newline ls) = ls := by
  induction ls with
  | nil => rfl
  | cons l rest ih =>
    cases rest with
    | nil =>
      obtain ⟨hne, hnl, _⟩ := h l (by simp)
      rw [show join_newline [l] = l from rfl]
      rw [splitLinesAux_no_newline l [] hnl]
      simp [hne]
    | cons l2 rest2 =>
      obtain ⟨hne, hnl, hcr⟩ := h l (by simp)
      rw [show join_newline (l :: l2 :: rest2) = l ++ '\n' :: join_newline (l2 :: rest2)
        from rfl]
      rw [splitLinesAux_append_newline l [] _ hnl]
      simp only [List.nil_append]
      rw [stripCR_of_getLast_ne l hcr]
      rw [ih (fun x hx => h x (by simp [hx]))]

theorem mk_library_line_getLast (key value : String) :
    (mk_library_line key value).data.getLast? = some '"' := by
  rw [mk_library_line_data]
  rw [show '"' :: (key.data ++ '"' :: ' ' :: '"' :: (value.data ++ ['"'])) =
    ('"' :: key.data ++ '"' :: ' ' :: '"' :: value.data) ++ ['"'] by simp]
  exact List.getLast?_concat _

theorem rust_lines_mk_library_file (entries : List (String × String))
    (h : ∀ e ∈ entries, '\n' ∉ e.1.data ∧ '\n' ∉ e.2.data) :
    rust_lines (mk_library_file entries) =
      entries.map (fun e => mk_library_line e.1 e.2) := by
  unfold rust_lines mk_library_file
  rw [show (String.mk (join_newline (entries.map (fun e => (mk_library_line e.1 e.2).data)))).data
    = join_newline (entries.map (fun e => (mk_library_line e.1 e.2).data)) from rfl]
  rw [splitLinesAux_join _ ?_]
  · rw [List.map_map]
    exact List.map_congr_left (fun e _ => rfl)
  · intro l hl
    rw [List.mem_map] at hl
    obtain ⟨e, he, rfl⟩ := hl
    obtain ⟨h1, h2⟩ := h e he
    refine ⟨by rw [mk_library_line_data]; simp, ?_, ?_⟩
    · rw [mk_library_line_data]
      intro hmem
      simp only [List.mem_cons, List.mem_append, List.mem_singleton] at hmem
      have hqc : ('\n' : Char) ≠ '"' := by decide
      have hsc : ('\n' : Char) ≠ ' ' := by decide
      tauto
    · rw [mk_library_line_getLast]
      simp

theorem no_newline_of_all_digits {s : String} (h : s.data.all Char.isDigit = true) :
    '\n' ∉ s.data := by
  intro hmem
  have := List.all_eq_true.mp h '\n' hmem
  simp [Char.isDigit] at this

/-- Claim C6: when at least one modern `"path"`-keyed line yields a
non-empty path, exactly those paths are returned in order, deduplicated;
when zero are found, the legacy bare-numeric-key entries are returned
instead; and a legacy-only index file yields the same paths as a
modern-format file with equivalent content. -/
theorem parse_steam_libraryfolder_paths_modern_legacy :
    (∀ contents : String,
      parse_steam_libraryfolder_paths contents =
        if modern_library_paths contents = [] then legacy_library_paths contents
        else modern_library_paths contents) ∧
    (∀ entries : List (String × String),
      (∀ e ∈ entries, e.1 ≠ "" ∧ e.1.data.all Char.isDigit = true ∧
        ∀ c ∈ e.2.data, c ≠ '"' ∧ c ≠ '\n') →
      parse_steam_libraryfolder_paths (mk_library_file entries) =
        parse_steam_libraryfolder_paths
          (mk_library_file (entries.map (fun e => ("path", e.2))))) := by
  refine ⟨parse_steam_libraryfolder_paths_eq, ?_⟩
  intro entries h
  have hval : ∀ e ∈ entries, ∀ c ∈ e.2.data, c ≠ '"' :=
    fun e he c hc => ((h e he).2.2 c hc).1
  have hvnl : ∀ e ∈ entries, '\n' ∉ e.2.data :=
    fun e he hm => ((h e he).2.2 '\n' hm).2 rfl
  have hlines1 : rust_lines (mk_library_file entries) =
      entries.map (fun e => mk_library_line e.1 e.2) :=
    rust_lines_mk_library_file _ (fun e he =>
      ⟨no_newline_of_all_digits (h e he).2.1, hvnl e he⟩)
  have hlines2 : rust_lines (mk_library_file (entries.map (fun e => ("path", e.2)))) =
      (entries.map (fun e => ("path", e.2))).map (fun e => mk_library_line e.1 e.2) :=
    rust_lines_mk_library_file _ (fun e he => by
      rw [List.mem_map] at he
      obtain ⟨e0, he0, rfl⟩ := he
      refine ⟨?_, hvnl e0 he0⟩
      show '\n' ∉ "path".data
      decide)
  have hm1 : modern_library_paths (mk_library_file entries) = dedup_paths [] := by
    unfold modern_library_paths
    rw [hlines1, List.filterMap_map]
    congr 1
    rw [List.filterMap_eq_nil_iff]
    intro e he
    simp only [Function.comp]
    rw [match_literal_key_line_mk_path_on_numeric e.1 e.2 (h e he).1 (h e he).2.1]
    rfl
  have hl1 : legacy_library_paths (mk_library_file entries) =
      dedup_paths (entries.filterMap (fun e =>
        if e.2 = "" then none else clean_library_path e.2)) := by
    unfold legacy_library_paths
    rw [hlines1, List.filterMap_map]
    congr 1
    apply List.filterMap_congr
    intro e he
    simp only [Function.comp]
    rw [match_numeric_key_line_mk e.1 e.2 (h e he).1 (h e he).2.1 (hval e he)]
    rcases eq_or_ne e.2 "" with hv | hv <;> simp [hv]
  have hm2 : modern_library_paths (mk_library_file (entries.map (fun e => ("path", e.2)))) =
      dedup_paths (entries.filterMap (fun e =>
        if e.2 = "" then none else clean_library_path e.2)) := by
    unfold modern_library_paths
    rw [hlines2, List.map_map, List.filterMap_map]
    congr 1
    apply List.filterMap_congr
    intro e he
    simp only [Function.comp]
    rw [match_literal_key_line_mk_path e.2 (hval e he)]
    rcases eq_or_ne e.2 "" with hv | hv <;> simp [hv]
  have hl2 : legacy_library_paths (mk_library_file (entries.map (fun e => ("path", e.2)))) =
      dedup_paths [] := by
    unfold legacy_library_paths
    rw [hlines2, List.map_map, List.filterMap_map]
    congr 1
    rw [List.filterMap_eq_nil_iff]
    intro e he
    simp only [Function.comp]
    rw [match_numeric_key_line_mk_path e.2]
    rfl
  rw [parse_steam_libraryfolder_paths_eq, parse_steam_libraryfolder_paths_eq,
    hm1, hl1, hm2, hl2]
  have hnil : dedup_paths [] = [] := rfl
  rw [hnil]
  by_cases hD : dedup_paths (entries.filterMap (fun e =>
      if e.2 = "" then none else clean_library_path e.2)) = []
  · simp [hD]
  · simp [hD]

/-- Witness for C6: a concrete two-entry legacy index yields the same
paths as its modern-format counterpart. -/
theorem parse_steam_libraryfolder_paths_modern_legacy_witness :
    parse_steam_libraryfolder_paths (mk_library_file [("0", "/lib"), ("1", "/lib2")]) =
      parse_steam_libraryfolder_paths
        (mk_library_file ([("0", "/lib"), ("1", "/lib2")].map (fun e => ("path", e.2)))) :=
  parse_steam_libraryfolder_paths_modern_legacy.2 [("0", "/lib"), ("1", "/lib2")]
    (by decide)

/-! ## Claim C1: parse/serialize round trip -/

theorem vdfEscapedChar_nul_free (e : Char) : ∀ c ∈ vdfEscapedChar e, c ≠ '\x00' := by
  unfold vdfEscapedChar
  by_cases h1 : e = '\\'
  · simp [h1]
  · by_cases h2 : e = '"'
    · simp [h1, h2]
    · by_cases h3 : e = 'n'
      · simp [h1, h2, h3]
      · by_cases h4 : e = 'r'
        · simp [h1, h2, h3, h4]
        · by_cases h5 : e = 't'
          · simp [h1, h2, h3, h4, h5]
          · by_cases h6 : e = '\x00'
            · simp [h1, h2, h3, h4, h5, h6]
            · simp [h1, h2, h3, h4, h5, h6]

theorem readQuoted_nul_free (acc cs : List Char) (h : ∀ c ∈ acc, c ≠ '\x00') :
    ∀ c ∈ (readQuoted acc cs).1, c ≠ '\x00' := by
  induction acc, cs using readQuoted.induct with
  | case1 acc => simpa [readQuoted] using h
  | case2 acc rest2 =>
    rw [readQuoted_cons, if_pos rfl]
    exact h
  | case3 acc rest2 h0 ih =>
    rw [readQuoted_cons, if_neg (by decide), if_pos rfl]
    exact ih h
  | case4 acc h0 h1 =>
    rw [readQuoted_cons, if_neg (by decide), if_neg (by decide), if_pos rfl]
    exact h
  | case5 acc e rest2 h0 h1 ih =>
    rw [readQuoted_cons, if_neg (by decide), if_neg (by decide), if_pos rfl]
    exact ih (fun c hc =>
      (List.mem_append.mp hc).elim (h c) (vdfEscapedChar_nul_free e c))
  | case6 acc e rest2 h0 h1 h2 ih =>
    rw [readQuoted_cons, if_neg h0, if_neg h1, if_neg h2]
    exact ih (fun c hc =>
      (List.mem_append.mp hc).elim (h c)
        (fun hc2 => by rw [List.mem_singleton.mp hc2]; exact h1))

theorem readBare_nul_free (acc cs : List Char) (h : ∀ c ∈ acc, c ≠ '\x00') :
    ∀ c ∈ (readBare acc cs).1, c ≠ '\x00' := by
  induction acc, cs using readBare.induct with
  | case1 acc => simpa [readBare] using h
  | case2 acc rest2 ih =>
    rw [readBare_cons, if_pos rfl]
    exact ih h
  | case3 acc e rest2 h0 h1 =>
    rw [readBare_cons, if_neg h0, if_pos h1]
    exact h
  | case4 acc e rest2 h0 h1 ih =>
    rw [readBare_cons, if_neg h0, if_neg h1]
    exact ih (fun c hc =>
      (List.mem_append.mp hc).elim (h c)
        (fun hc2 => by rw [List.mem_singleton.mp hc2]; exact h0))

set_option maxHeartbeats 1000000 in
theorem tokenizeLoop_cons (c : Char) (rest : List Char) :
    tokenizeLoop (c :: rest) =
      if c = '{' then .OpenBrace :: tokenizeLoop rest
      else if c = '}' then .CloseBrace :: tokenizeLoop rest
      else if c = '"' then
        .Text (String.mk (readQuoted [] rest).1) :: tokenizeLoop (readQuoted [] rest).2
      else if c = '/' ∧ rest.head? = some '/' then tokenizeLoop (skipLineComment rest.tail)
      else if rustIsWhitespace c || c = '\x00' then tokenizeLoop rest
      else .Text (String.mk (readBare [c] rest).1) :: tokenizeLoop (readBare [c] rest).2 := by
  rw [tokenizeLoop.eq_def]

theorem tokenizeLoop_nul_free (cs : List Char) :
    ∀ t ∈ tokenizeLoop cs, token_nul_free t = true := by
  induction cs using tokenizeLoop.induct with
  | case1 => simp [tokenizeLoop]
  | case2 rest2 ih =>
    rw [tokenizeLoop_cons]
    simp only [if_pos rfl]
    intro t ht
    rcases List.mem_cons.mp ht with rfl | ht
    · rfl
    · exact ih t ht
  | case3 rest2 h1 ih =>
    rw [tokenizeLoop_cons]
    rw [if_neg h1, if_pos rfl]
    intro t ht
    rcases List.mem_cons.mp ht with rfl | ht
    · rfl
    · exact ih t ht
  | case4 rest2 h1 h2 ih =>
    rw [tokenizeLoop_cons]
    rw [if_neg h1, if_neg h2, if_pos rfl]
    intro t ht
    rcases List.mem_cons.mp ht with rfl | ht
    · show nulFreeStr (String.mk (readQuoted [] rest2).1) = true
      unfold nulFreeStr
      rw [List.all_eq_true]
      intro c hc
      simpa using readQuoted_nul_free [] rest2 (by simp) c hc
    · exact ih t ht
  | case5 e rest2 h1 h2 h3 h4 ih =>
    rw [tokenizeLoop_cons]
    rw [if_neg h1, if_neg h2, if_neg h3, if_pos h4]
    exact ih
  | case6 e rest2 h1 h2 h3 h4 h5 ih =>
    rw [tokenizeLoop_cons]
    rw [if_neg h1, if_neg h2, if_neg h3, if_neg h4, if_pos h5]
    exact ih
  | case7 e rest2 h1 h2 h3 h4 h5 ih =>
    rw [tokenizeLoop_cons]
    rw [if_neg h1, if_neg h2, if_neg h3, if_neg h4, if_neg h5]
    intro t ht
    have he : e ≠ '\x00' := by
      intro hh
      exact h5 (by simp [hh])
    rcases List.mem_cons.mp ht with rfl | ht
    · show nulFreeStr (String.mk (readBare [e] rest2).1) = true
      unfold nulFreeStr
      rw [List.all_eq_true]
      intro c hc
      simpa using readBare_nul_free [e] rest2 (by simpa using he) c hc
    · exact ih t ht

theorem tokenize_vdf_nul_free (contents : String) :
    ∀ t ∈ tokenize_vdf contents, token_nul_free t = true :=
  tokenizeLoop_nul_free _

/-! ## Claim C5: parser failure conditions -/

theorem parse_vdf_tokens_nil : parse_vdf_tokens [] = .ok ([], []) := by
  unfold parse_vdf_tokens
  rw [parseVdfTokensAux]

theorem parse_vdf_tokens_close (rest : List VdfToken) :
    parse_vdf_tokens (.CloseBrace :: rest) = .ok ([], rest) := by
  unfold parse_vdf_tokens
  rw [parseVdfTokensAux]

theorem parse_vdf_tokens_text_text (key value : String) (rest : List VdfToken) :
    parse_vdf_tokens (.Text key :: .Text value :: rest) =
      match parse_vdf_tokens rest with
      | .error e => .error e
      | .ok (entries, rem) => .ok ((key, .Text value) :: entries, rem) := by
  unfold parse_vdf_tokens
  rw [parseVdfTokensAux]
  cases parseVdfTokensAux rest with
  | error e => rfl
  | ok res =>
    obtain ⟨entries, rem, hrem⟩ := res
    rfl

theorem parse_vdf_tokens_text_open (key : String) (rest : List VdfToken) :
    parse_vdf_tokens (.Text key :: .OpenBrace :: rest) =
      match parse_vdf_tokens rest with
      | .error e => .error e
      | .ok (child, rem) =>
        match parse_vdf_tokens rem with
        | .error e => .error e
        | .ok (entries, rem2) => .ok ((key, .Object child) :: entries, rem2) := by
  unfold parse_vdf_tokens
  rw [parseVdfTokensAux]
  cases parseVdfTokensAux rest with
  | error e => rfl
  | ok res =>
    obtain ⟨child, rem, hrem⟩ := res
    dsimp only
    cases parseVdfTokensAux rem with
    | error e => rfl
    | ok res2 =>
      obtain ⟨entries, rem2, hrem2⟩ := res2
      rfl

theorem spec_malformed_tokens_parse :
    ∀ (n : Nat) (ts : List VdfToken), ts.length ≤ n → ∀ depth : Nat,
      spec_malformed_tokens ts depth =
        match parse_vdf_tokens ts with
        | .error _ => true
        | .ok (_, rem) =>
          if depth = 0 then !rem.isEmpty else spec_malformed_tokens rem (depth - 1) := by
  intro n
  induction n with
  | zero =>
    intro ts hts depth
    have : ts = [] := List.length_eq_zero.mp (Nat.le_zero.mp hts)
    subst this
    cases depth <;> simp [spec_malformed_tokens, parse_vdf_tokens_nil]
  | succ n ih =>
    intro ts hts depth
    match ts with
    | [] => cases depth <;> simp [spec_malformed_tokens, parse_vdf_tokens_nil]
    | .OpenBrace :: rest =>
      simp [spec_malformed_tokens, parse_vdf_tokens, parseVdfTokensAux]
    | .CloseBrace :: rest =>
      rw [spec_malformed_tokens, parse_vdf_tokens_close]
    | .Text key :: [] =>
      simp [spec_malformed_tokens, parse_vdf_tokens, parseVdfTokensAux]
    | .Text key :: .CloseBrace :: rest =>
      simp [spec_malformed_tokens, parse_vdf_tokens, parseVdfTokensAux]
    | .Text key :: .Text value :: rest =>
      rw [spec_malformed_tokens, parse_vdf_tokens_text_text]
      have hrec := ih rest (by simp at hts; omega) depth
      rw [hrec]
      cases parse_vdf_tokens rest with
      | error e => rfl
      | ok res => rfl
    | .Text key :: .OpenBrace :: rest =>
      rw [spec_malformed_tokens, parse_vdf_tokens_text_open]
      have hrec1 := ih rest (by simp at hts; omega) (depth + 1)
      rw [hrec1]
      cases hp : parse_vdf_tokens rest with
      | error e => rfl
      | ok res =>
        obtain ⟨child, rem⟩ := res
        have hremlen : rem.length ≤ rest.length := by
          have : parseVdfTokensAux rest = (parseVdfTokensAux rest) := rfl
          unfold parse_vdf_tokens at hp
          cases hq : parseVdfTokensAux rest with
          | error e => rw [hq] at hp; exact absurd hp (by simp)
          | ok res2 =>
            obtain ⟨child2, rem2, hrem2⟩ := res2
            rw [hq] at hp
            simp only [Except.ok.injEq, Prod.mk.injEq] at hp
            obtain ⟨_, hrem⟩ := hp
            subst hrem
            exact hrem2
        have hrec2 := ih rem (by simp at hts; omega) depth
        simp only [Nat.add_sub_cancel, Nat.succ_ne_zero, if_false]
        rw [hrec2]
        cases parse_vdf_tokens rem with
        | error e => rfl
        | ok res2 => rfl

theorem tokenizeLoop_open_char (rest : List Char) :
    tokenizeLoop ('{' :: rest) = .OpenBrace :: tokenizeLoop rest := by
  rw [tokenizeLoop_cons, if_pos rfl]

theorem tokenizeLoop_close_char (rest : List Char) :
    tokenizeLoop ('}' :: rest) = .CloseBrace :: tokenizeLoop rest := by
  rw [tokenizeLoop_cons, if_neg (by decide), if_pos rfl]

theorem tokenizeLoop_tab (rest : List Char) :
    tokenizeLoop ('\t' :: rest) = tokenizeLoop rest := by
  rw [tokenizeLoop_cons, if_neg (by decide), if_neg (by decide), if_neg (by decide),
    if_neg (fun hand => absurd hand.1 (by decide)), if_pos (by decide)]

theorem tokenizeLoop_newline (rest : List Char) :
    tokenizeLoop ('\n' :: rest) = tokenizeLoop rest := by
  rw [tokenizeLoop_cons, if_neg (by decide), if_neg (by decide), if_neg (by decide),
    if_neg (fun hand => absurd hand.1 (by decide)), if_pos (by decide)]

theorem tokenizeLoop_indent (d : Nat) (rest : List Char) :
    tokenizeLoop (List.replicate d '\t' ++ rest) = tokenizeLoop rest := by
  induction d with
  | zero => rfl
  | succ d ih => simpa [List.replicate_succ, tokenizeLoop_tab] using ih

theorem escape_chars_readQuoted :
    ∀ (l : List Char), (∀ c ∈ l, c ≠ '\x00') → ∀ (acc rest : List Char),
      readQuoted acc (l.flatMap escapeVdfChar ++ '"' :: rest) = (acc ++ l, rest) := by
  intro l
  induction l with
  | nil =>
    intro _ acc rest
    simp [readQuoted_cons]
  | cons c cs ih =>
    intro h acc rest
    have hcs : ∀ x ∈ cs, x ≠ '\x00' := fun x hx => h x (by simp [hx])
    have hc0 : c ≠ '\x00' := h c (by simp)
    by_cases h1 : c = '\\'
    · subst h1
      rw [show ('\\' :: cs).flatMap escapeVdfChar ++ '"' :: rest =
        '\\' :: '\\' :: (cs.flatMap escapeVdfChar ++ '"' :: rest) by simp [escapeVdfChar]]
      rw [readQuoted_cons, if_neg (by decide), if_neg (by decide), if_pos rfl]
      dsimp only
      rw [show vdfEscapedChar '\\' = ['\\'] from rfl]
      rw [ih hcs (acc ++ ['\\']) rest]
      simp
    · by_cases h2 : c = '"'
      · subst h2
        rw [show ('"' :: cs).flatMap escapeVdfChar ++ '"' :: rest =
          '\\' :: '"' :: (cs.flatMap escapeVdfChar ++ '"' :: rest) by simp [escapeVdfChar]]
        rw [readQuoted_cons, if_neg (by decide), if_neg (by decide), if_pos rfl]
        dsimp only
        rw [show vdfEscapedChar '"' = ['"'] from rfl]
        rw [ih hcs (acc ++ ['"']) rest]
        simp
      · by_cases h3 : c = '\n'
        · subst h3
          rw [show ('\n' :: cs).flatMap escapeVdfChar ++ '"' :: rest =
            '\\' :: 'n' :: (cs.flatMap escapeVdfChar ++ '"' :: rest) by simp [escapeVdfChar]]
          rw [readQuoted_cons, if_neg (by decide), if_neg (by decide), if_pos rfl]
          dsimp only
          rw [show vdfEscapedChar 'n' = ['\n'] from rfl]
          rw [ih hcs (acc ++ ['\n']) rest]
          simp
        · by_cases h4 : c = '\r'
          · subst h4
            rw [show ('\r' :: cs).flatMap escapeVdfChar ++ '"' :: rest =
              '\\' :: 'r' :: (cs.flatMap escapeVdfChar ++ '"' :: rest) by simp [escapeVdfChar]]
            rw [readQuoted_cons, if_neg (by decide), if_neg (by decide), if_pos rfl]
            dsimp only
            rw [show vdfEscapedChar 'r' = ['\r'] from rfl]
            rw [ih hcs (acc ++ ['\r']) rest]
            simp
          · by_cases h5 : c = '\t'
            · subst h5
              rw [show ('\t' :: cs).flatMap escapeVdfChar ++ '"' :: rest =
                '\\' :: 't' :: (cs.flatMap escapeVdfChar ++ '"' :: rest) by simp [escapeVdfChar]]
              rw [readQuoted_cons, if_neg (by decide), if_neg (by decide), if_pos rfl]
              dsimp only
              rw [show vdfEscapedChar 't' = ['\t'] from rfl]
              rw [ih hcs (acc ++ ['\t']) rest]
              simp
            · rw [show (c :: cs).flatMap escapeVdfChar ++ '"' :: rest =
                c :: (cs.flatMap escapeVdfChar ++ '"' :: rest) by
                  simp [escapeVdfChar, h1, h2, h3, h4, h5]]
              rw [readQuoted_cons, if_neg h2, if_neg hc0, if_neg h1]
              rw [ih hcs (acc ++ [c]) rest]
              simp

theorem tokenizeLoop_quoted (s : String) (rest : List Char) (h : nulFreeStr s = true) :
    tokenizeLoop ('"' :: ((escape_vdf_text s).data ++ '"' :: rest)) =
      .Text s :: tokenizeLoop rest := by
  rw [tokenizeLoop_cons, if_neg (by decide), if_neg (by decide), if_pos rfl]
  have hnf : ∀ c ∈ s.data, c ≠ '\x00' := by
    intro c hc
    have := List.all_eq_true.mp h c hc
    simpa using this
  rw [show (escape_vdf_text s).data = s.data.flatMap escapeVdfChar from rfl]
  rw [escape_chars_readQuoted s.data hnf [] rest]
  simp

mutual
theorem tokenize_serialize_entry (key : String) (v : VdfValue) (depth : Nat)
    (rest : List Char) (hk : nulFreeStr key = true) (hv : value_nul_free v = true) :
    tokenizeLoop ((serialize_vdf_entry key v depth).data ++ rest) =
      .Text key :: (value_tokens v ++ tokenizeLoop rest) := by
  cases v with
  | Text text =>
    rw [show (serialize_vdf_entry key (.Text text) depth).data ++ rest =
      List.replicate depth '\t' ++ ('"' :: ((escape_vdf_text key).data ++ '"' :: '\t' :: '"' ::
        ((escape_vdf_text text).data ++ '"' :: '\n' :: rest))) by
          simp [serialize_vdf_entry, String.data_append]]
    rw [tokenizeLoop_indent, tokenizeLoop_quoted key _ hk, tokenizeLoop_tab,
      tokenizeLoop_quoted text _ (by simpa [value_nul_free] using hv), tokenizeLoop_newline]
    simp [value_tokens]
  | Object es =>
    rw [show (serialize_vdf_entry key (.Object es) depth).data ++ rest =
      List.replicate depth '\t' ++ ('"' :: ((escape_vdf_text key).data ++ '"' :: '\n' ::
        (List.replicate depth '\t' ++ ('{' :: '\n' ::
          ((serialize_vdf_entries es (depth + 1)).data ++
            (List.replicate depth '\t' ++ ('}' :: '\n' :: rest))))))) by
          simp [serialize_vdf_entry, String.data_append]]
    rw [tokenizeLoop_indent, tokenizeLoop_quoted key _ hk, tokenizeLoop_newline,
      tokenizeLoop_indent, tokenizeLoop_open_char, tokenizeLoop_newline,
      tokenize_serialize_entries es (depth + 1) _ (by simpa [value_nul_free] using hv),
      tokenizeLoop_indent, tokenizeLoop_close_char, tokenizeLoop_newline]
    simp [value_tokens]

theorem tokenize_serialize_entries (es : List (String × VdfValue)) (depth : Nat)
    (rest : List Char) (h : entries_nul_free es = true) :
    tokenizeLoop ((serialize_vdf_entries es depth).data ++ rest) =
      entries_tokens es ++ tokenizeLoop rest := by
  cases es with
  | nil => simp [serialize_vdf_entries, entries_tokens]
  | cons e rest2 =>
    obtain ⟨k, v⟩ := e
    have hsplit : nulFreeStr k = true ∧ value_nul_free v = true ∧
        entries_nul_free rest2 = true := by
      simpa [entries_nul_free, Bool.and_eq_true, and_assoc] using h
    rw [show (serialize_vdf_entries ((k, v) :: rest2) depth).data ++ rest =
      (serialize_vdf_entry k v depth).data ++ ((serialize_vdf_entries rest2 depth).data ++ rest)
        by simp [serialize_vdf_entries, String.data_append]]
    rw [tokenize_serialize_entry k v depth _ hsplit.1 hsplit.2.1,
      tokenize_serialize_entries rest2 depth rest hsplit.2.2]
    simp [entries_tokens]
end

theorem parse_vdf_tokens_open (rest : List VdfToken) :
    ∃ e, parse_vdf_tokens (.OpenBrace :: rest) = .error e := by
  refine ⟨"Invalid VDF format: unexpected open brace", ?_⟩
  unfold parse_vdf_tokens
  rw [parseVdfTokensAux]

theorem parse_vdf_tokens_text_nil (key : String) :
    ∃ e, parse_vdf_tokens [.Text key] = .error e := by
  refine ⟨"Invalid VDF format: missing value for key " ++ key, ?_⟩
  unfold parse_vdf_tokens
  rw [parseVdfTokensAux]

theorem parse_vdf_tokens_text_close (key : String) (rest : List VdfToken) :
    ∃ e, parse_vdf_tokens (.Text key :: .CloseBrace :: rest) = .error e := by
  refine ⟨"Invalid VDF format: missing value for key " ++ key, ?_⟩
  unfold parse_vdf_tokens
  rw [parseVdfTokensAux]

theorem parse_vdf_tokens_rem_length (ts : List VdfToken) (es : List (String × VdfValue))
    (rem : List VdfToken) (h : parse_vdf_tokens ts = .ok (es, rem)) :
    rem.length ≤ ts.length := by
  unfold parse_vdf_tokens at h
  cases hq : parseVdfTokensAux ts with
  | error e =>
    rw [hq] at h
    exact absurd h (by simp)
  | ok res =>
    obtain ⟨es2, rem2, hlen⟩ := res
    rw [hq] at h
    simp only [Except.ok.injEq, Prod.mk.injEq] at h
    obtain ⟨-, hr⟩ := h
    subst hr
    exact hlen

theorem parse_vdf_tokens_nul_free :
    ∀ (n : Nat) (ts : List VdfToken), ts.length ≤ n →
      (∀ t ∈ ts, token_nul_free t = true) →
      ∀ es rem, parse_vdf_tokens ts = .ok (es, rem) →
        entries_nul_free es = true ∧ (∀ t ∈ rem, token_nul_free t = true) := by
  intro n
  induction n with
  | zero =>
    intro ts hlen hts es rem h
    have hnil : ts = [] := List.length_eq_zero.mp (Nat.le_zero.mp hlen)
    subst hnil
    rw [parse_vdf_tokens_nil] at h
    simp only [Except.ok.injEq, Prod.mk.injEq] at h
    obtain ⟨rfl, rfl⟩ := h.symm
    exact ⟨rfl, by simp⟩
  | succ n ih =>
    intro ts hlen hts es rem h
    match ts with
    | [] =>
      rw [parse_vdf_tokens_nil] at h
      simp only [Except.ok.injEq, Prod.mk.injEq] at h
      obtain ⟨rfl, rfl⟩ := h.symm
      exact ⟨rfl, by simp⟩
    | .OpenBrace :: rest =>
      obtain ⟨e, he⟩ := parse_vdf_tokens_open rest
      rw [he] at h
      simp at h
    | .CloseBrace :: rest =>
      rw [parse_vdf_tokens_close] at h
      simp only [Except.ok.injEq, Prod.mk.injEq] at h
      obtain ⟨rfl, rfl⟩ := h.symm
      exact ⟨rfl, fun t ht => hts t (by simp [ht])⟩
    | .Text key :: [] =>
      obtain ⟨e, he⟩ := parse_vdf_tokens_text_nil key
      rw [he] at h
      simp at h
    | .Text key :: .CloseBrace :: rest =>
      obtain ⟨e, he⟩ := parse_vdf_tokens_text_close key rest
      rw [he] at h
      simp at h
    | .Text key :: .Text value :: rest =>
      rw [parse_vdf_tokens_text_text] at h
      cases hp : parse_vdf_tokens rest with
      | error e =>
        rw [hp] at h
        simp at h
      | ok res =>
        obtain ⟨es2, rem2⟩ := res
        rw [hp] at h
        simp only [Except.ok.injEq, Prod.mk.injEq] at h
        obtain ⟨rfl, rfl⟩ := h.symm
        have hsub := ih rest (by simp at hlen; omega)
          (fun t ht => hts t (by simp [ht])) es2 rem2 hp
        refine ⟨?_, hsub.2⟩
        have hk : nulFreeStr key = true := hts (.Text key) (by simp)
        have hv : nulFreeStr value = true := hts (.Text value) (by simp)
        simp [entries_nul_free, value_nul_free, hk, hv, hsub.1]
    | .Text key :: .OpenBrace :: rest =>
      rw [parse_vdf_tokens_text_open] at h
      cases hp1 : parse_vdf_tokens rest with
      | error e =>
        rw [hp1] at h
        simp at h
      | ok res1 =>
        obtain ⟨child, rem1⟩ := res1
        rw [hp1] at h
        dsimp only at h
        cases hp2 : parse_vdf_tokens rem1 with
        | error e =>
          rw [hp2] at h
          simp at h
        | ok res2 =>
          obtain ⟨es2, rem2⟩ := res2
          rw [hp2] at h
          simp only [Except.ok.injEq, Prod.mk.injEq] at h
          obtain ⟨rfl, rfl⟩ := h.symm
          have hsub1 := ih rest (by simp at hlen; omega)
            (fun t ht => hts t (by simp [ht])) child rem1 hp1
          have hr1len := parse_vdf_tokens_rem_length rest child rem1 hp1
          have hsub2 := ih rem1 (by simp at hlen; omega) hsub1.2 es2 rem2 hp2
          refine ⟨?_, hsub2.2⟩
          have hk : nulFreeStr key = true := hts (.Text key) (by simp)
          simp [entries_nul_free, value_nul_free, hk, hsub1.1, hsub2.1]

theorem tokenizeLoop_nil : tokenizeLoop [] = [] := by
  rw [tokenizeLoop.eq_def]

mutual
theorem parse_value_tokens (k : String) (v : VdfValue) (rest : List VdfToken) :
    parse_vdf_tokens (.Text k :: (value_tokens v ++ rest)) =
      match parse_vdf_tokens rest with
      | .error e => .error e
      | .ok (es2, rem) => .ok ((k, v) :: es2, rem) := by
  cases v with
  | Text t =>
    rw [show VdfToken.Text k :: (value_tokens (.Text t) ++ rest) =
      .Text k :: .Text t :: rest by simp [value_tokens]]
    rw [parse_vdf_tokens_text_text]
  | Object es =>
    rw [show VdfToken.Text k :: (value_tokens (.Object es) ++ rest) =
      .Text k :: .OpenBrace :: (entries_tokens es ++ (.CloseBrace :: rest)) by
        simp [value_tokens]]
    rw [parse_vdf_tokens_text_open]
    rw [parse_entries_tokens es (.CloseBrace :: rest)]
    rw [parse_vdf_tokens_close]
    dsimp only
    simp only [List.append_nil]

theorem parse_entries_tokens (es : List (String × VdfValue)) (rest : List VdfToken) :
    parse_vdf_tokens (entries_tokens es ++ rest) =
      match parse_vdf_tokens rest with
      | .error e => .error e
      | .ok (es2, rem) => .ok (es ++ es2, rem) := by
  cases es with
  | nil =>
    rw [show entries_tokens [] ++ rest = rest by simp [entries_tokens]]
    cases parse_vdf_tokens rest with
    | error e => rfl
    | ok res =>
      obtain ⟨es2, rem⟩ := res
      simp
  | cons e es2 =>
    obtain ⟨k, v⟩ := e
    rw [show entries_tokens ((k, v) :: es2) ++ rest =
      .Text k :: (value_tokens v ++ (entries_tokens es2 ++ rest)) by simp [entries_tokens]]
    rw [parse_value_tokens k v (entries_tokens es2 ++ rest)]
    rw [parse_entries_tokens es2 rest]
    cases parse_vdf_tokens rest with
    | error e => rfl
    | ok res =>
      obtain ⟨es3, rem⟩ := res
      rfl
end

theorem serialize_entries_cons_head (k : String) (v : VdfValue)
    (rest : List (String × VdfValue)) :
    ∃ tail, (serialize_vdf_entries ((k, v) :: rest) 0).data = '"' :: tail := by
  cases v with
  | Text t =>
    refine ⟨(escape_vdf_text k).data ++ '"' :: '\t' :: '"' ::
      ((escape_vdf_text t).data ++ '"' :: '\n' :: (serialize_vdf_entries rest 0).data), ?_⟩
    simp [serialize_vdf_entries, serialize_vdf_entry, String.data_append]
  | Object es =>
    refine ⟨(escape_vdf_text k).data ++ '"' :: '\n' :: '{' :: '\n' ::
      ((serialize_vdf_entries es 1).data ++ '}' :: '\n' ::
        (serialize_vdf_entries rest 0).data), ?_⟩
    simp [serialize_vdf_entries, serialize_vdf_entry, String.data_append]

theorem serialize_entries_dropWhile_bom (entries : List (String × VdfValue)) :
    (serialize_vdf_entries entries 0).data.dropWhile (fun c => c = Char.ofNat 0xFEFF) =
      (serialize_vdf_entries entries 0).data := by
  cases entries with
  | nil => rfl
  | cons e rest =>
    obtain ⟨k, v⟩ := e
    obtain ⟨tail, htail⟩ := serialize_entries_cons_head k v rest
    rw [htail, List.dropWhile_cons, if_neg (by decide)]

/-- Claim C1: every document tree produced by a successful run of the VDF
parser serializes to text that parses back to a structurally equal tree. -/
theorem vdf_parse_serialize_roundtrip :
    ∀ (contents : String) (tree : VdfValue),
      parse_vdf_document contents = .ok tree →
      parse_vdf_document (serialize_vdf_document tree) = .ok tree := by
  intro contents tree h
  unfold parse_vdf_document parse_vdf_document_tokens at h
  cases hp : parse_vdf_tokens (tokenize_vdf contents) with
  | error e =>
    rw [hp] at h
    simp at h
  | ok res =>
    obtain ⟨entries, rem⟩ := res
    rw [hp] at h
    dsimp only at h
    by_cases hrem : rem.isEmpty
    · rw [if_pos hrem] at h
      simp only [Except.ok.injEq] at h
      obtain rfl := h.symm
      have hnf := (parse_vdf_tokens_nul_free (tokenize_vdf contents).length
        (tokenize_vdf contents) (Nat.le_refl _) (tokenize_vdf_nul_free contents)
        entries rem hp).1
      have htok : tokenizeLoop ((serialize_vdf_entries entries 0).data) =
          entries_tokens entries := by
        have hts := tokenize_serialize_entries entries 0 [] hnf
        rw [tokenizeLoop_nil] at hts
        simpa using hts
      have hparse : parse_vdf_tokens (entries_tokens entries) = .ok (entries, []) := by
        have hpe := parse_entries_tokens entries []
        rw [parse_vdf_tokens_nil] at hpe
        simpa using hpe
      show parse_vdf_document_tokens
        (tokenize_vdf (serialize_vdf_document (.Object entries))) = _
      rw [show serialize_vdf_document (.Object entries) =
        serialize_vdf_entries entries 0 from rfl]
      unfold tokenize_vdf
      rw [serialize_entries_dropWhile_bom, htok]
      unfold parse_vdf_document_tokens
      rw [hparse]
      rfl
    · rw [if_neg hrem] at h
      simp at h

/-- Witness for C1: a concrete one-entry document parses, and its
serialization parses back to the same tree. -/
theorem vdf_parse_serialize_roundtrip_witness :
    parse_vdf_document (serialize_vdf_document (.Object [("a", .Text "1")])) =
      .ok (.Object [("a", .Text "1")]) := by
  apply vdf_parse_serialize_roundtrip "\"a\"\t\"1\"\n"
  have htok : tokenize_vdf "\"a\"\t\"1\"\n" = [.Text "a", .Text "1"] := by
    unfold tokenize_vdf
    rw [show ("\"a\"\t\"1\"\n".data.dropWhile (fun c => c = Char.ofNat 0xFEFF)) =
      ['"', 'a', '"', '\t', '"', '1', '"', '\n'] from rfl]
    rw [tokenizeLoop_cons, if_neg (by decide), if_neg (by decide), if_pos rfl]
    rw [show readQuoted [] ['a', '"', '\t', '"', '1', '"', '\n'] =
      (['a'], ['\t', '"', '1', '"', '\n']) from rfl]
    rw [tokenizeLoop_tab]
    rw [tokenizeLoop_cons, if_neg (by decide), if_neg (by decide), if_pos rfl]
    rw [show readQuoted [] ['1', '"', '\n'] = (['1'], ['\n']) from rfl]
    rw [tokenizeLoop_newline, tokenizeLoop_nil]
  show parse_vdf_document_tokens (tokenize_vdf "\"a\"\t\"1\"\n") = _
  rw [htok]
  unfold parse_vdf_document_tokens
  rw [parse_vdf_tokens_text_text, parse_vdf_tokens_nil]
  rfl

/-- Claim C5: parsing a token stream fails with a malformed-document error
exactly under the spec's conditions — an open-brace in key position, a key
followed by end of input or a close-brace, or trailing tokens after the
top-level object closes; a close-brace in key position merely ends the
current object. -/
theorem parse_vdf_document_tokens_malformed :
    ∀ tokens : List VdfToken,
      (∃ e, parse_vdf_document_tokens tokens = .error e) ↔
        spec_malformed_tokens tokens 0 = true := by
  intro tokens
  rw [spec_malformed_tokens_parse tokens.length tokens (Nat.le_refl _) 0]
  unfold parse_vdf_document_tokens
  cases parse_vdf_tokens tokens with
  | error e => simp
  | ok res =>
    obtain ⟨entries, rem⟩ := res
    cases rem with
    | nil => simp
    | cons t rem2 => simp


/-! ## Settings-edit algebra (C8) -/

theorem eq_ignore_ascii_case_symm (a b : String) :
    eq_ignore_ascii_case a b = eq_ignore_ascii_case b a := by
  simp only [eq_ignore_ascii_case, decide_eq_decide]
  exact ⟨Eq.symm, Eq.symm⟩

theorem eq_ignore_ascii_case_trans {a b c : String}
    (h1 : eq_ignore_ascii_case a b = true) (h2 : eq_ignore_ascii_case b c = true) :
    eq_ignore_ascii_case a c = true := by
  simp only [eq_ignore_ascii_case, decide_eq_true_eq] at h1 h2 ⊢
  rw [h1, h2]

theorem isObjectV_set_text_entry (x : VdfValue) (k t : String) :
    isObjectV (vdf_set_text_entry x k t) = true := by
  cases x <;> rfl

theorem isObjectV_remove_entry {x : VdfValue} (h : isObjectV x = true) (k : String) :
    isObjectV (vdf_remove_entry x k) = true := by
  cases x with
  | Text s => simp [isObjectV] at h
  | Object es => rfl

theorem isObjectV_get_or_insert (x : VdfValue) (k : String) (f : VdfValue → VdfValue) :
    isObjectV (vdf_get_or_insert_object_update x k f) = true := by
  cases x <;> rfl

theorem find_set_text_entries (k t : String) :
    ∀ es : List (String × VdfValue),
      ((vdf_set_text_entries k t es).find?
          (fun e => eq_ignore_ascii_case e.1 k)).map (fun e => e.2) =
        some (.Text t) := by
  intro es
  induction es with
  | nil =>
    simp [vdf_set_text_entries, List.find?, eq_ignore_ascii_case_refl]
  | cons e rest ih =>
    obtain ⟨k0, v⟩ := e
    by_cases hm : eq_ignore_ascii_case k0 k = true
    · simp [vdf_set_text_entries, hm, List.find?]
    · rw [Bool.not_eq_true] at hm
      simp only [vdf_set_text_entries, hm, Bool.false_eq_true, if_false]
      simp only [List.find?, hm]
      exact ih

theorem vdf_find_set_self (x : VdfValue) (k t : String) :
    vdf_find_object_value (vdf_set_text_entry x k t) k = some (.Text t) := by
  cases x with
  | Text s =>
    simp only [vdf_set_text_entry, vdf_find_object_value]
    exact find_set_text_entries k t []
  | Object es =>
    simp only [vdf_set_text_entry, vdf_find_object_value]
    exact find_set_text_entries k t es

theorem vdf_find_remove_self (x : VdfValue) (k : String) :
    vdf_find_object_value (vdf_remove_entry x k) k = none := by
  cases x with
  | Text s => rfl
  | Object es =>
    simp only [vdf_remove_entry, vdf_find_object_value]
    rw [List.find?_eq_none.mpr]
    · rfl
    · intro a ha
      have hmem := List.of_mem_filter ha
      simp only [Bool.not_eq_eq_eq_not, Bool.not_true] at hmem ⊢
      simp [hmem]

theorem set_text_entries_fix (k t : String) :
    ∀ es : List (String × VdfValue),
      (es.find? (fun e => eq_ignore_ascii_case e.1 k)).map (fun e => e.2) =
        some (.Text t) →
      vdf_set_text_entries k t es = es := by
  intro es
  induction es with
  | nil => intro h; simp [List.find?] at h
  | cons e rest ih =>
    intro h
    obtain ⟨k0, v⟩ := e
    by_cases hm : eq_ignore_ascii_case k0 k = true
    · simp only [List.find?, hm] at h
      have hv : v = VdfValue.Text t := by simpa using h
      simp only [vdf_set_text_entries, hm, if_true]
      rw [hv]
    · rw [Bool.not_eq_true] at hm
      simp only [List.find?, hm] at h
      simp only [vdf_set_text_entries, hm, Bool.false_eq_true, if_false]
      rw [ih h]

theorem vdf_set_entry_fix {x : VdfValue} {k t : String}
    (h : vdf_find_object_value x k = some (.Text t)) :
    vdf_set_text_entry x k t = x := by
  cases x with
  | Text s => simp [vdf_find_object_value] at h
  | Object es =>
    simp only [vdf_find_object_value] at h
    simp only [vdf_set_text_entry]
    rw [set_text_entries_fix k t es h]

theorem vdf_remove_entry_fix {x : VdfValue} {k : String}
    (h : vdf_find_object_value x k = none) :
    vdf_remove_entry x k = x := by
  cases x with
  | Text s => rfl
  | Object es =>
    simp only [vdf_find_object_value, Option.map_eq_none'] at h
    rw [List.find?_eq_none] at h
    simp only [vdf_remove_entry]
    rw [List.filter_eq_self.mpr]
    intro a ha
    have := h a ha
    simp only [Bool.not_eq_true] at this ⊢
    simp [this]

theorem find_set_text_entries_other {k1 k2 : String} (t : String)
    (h : eq_ignore_ascii_case k1 k2 = false) :
    ∀ es : List (String × VdfValue),
      (vdf_set_text_entries k2 t es).find? (fun e => eq_ignore_ascii_case e.1 k1) =
        es.find? (fun e => eq_ignore_ascii_case e.1 k1) := by
  intro es
  induction es with
  | nil =>
    simp only [vdf_set_text_entries, List.find?]
    have hk : eq_ignore_ascii_case k2 k1 = false := by
      rw [eq_ignore_ascii_case_symm]; exact h
    simp [hk]
  | cons e rest ih =>
    obtain ⟨k0, v⟩ := e
    by_cases hm2 : eq_ignore_ascii_case k0 k2 = true
    · have hm1 : eq_ignore_ascii_case k0 k1 = false := by
        by_contra hc
        rw [Bool.not_eq_false] at hc
        have h12 : eq_ignore_ascii_case k1 k2 = true := by
          refine eq_ignore_ascii_case_trans ?_ hm2
          rw [eq_ignore_ascii_case_symm]; exact hc
        rw [h12] at h; exact Bool.true_eq_false.mp h
      simp only [vdf_set_text_entries, hm2, if_true, List.find?, hm1]
    · rw [Bool.not_eq_true] at hm2
      simp only [vdf_set_text_entries, hm2, Bool.false_eq_true, if_false, List.find?]
      by_cases hm1 : eq_ignore_ascii_case k0 k1 = true
      · simp [hm1]
      · rw [Bool.not_eq_true] at hm1
        simp only [hm1]
        exact ih

theorem vdf_find_set_other {k1 k2 : String} (x : VdfValue) (t : String)
    (h : eq_ignore_ascii_case k1 k2 = false) :
    vdf_find_object_value (vdf_set_text_entry x k2 t) k1 =
      vdf_find_object_value x k1 := by
  cases x with
  | Text s =>
    simp only [vdf_set_text_entry, vdf_find_object_value]
    rw [find_set_text_entries_other t h []]
    rfl
  | Object es =>
    simp only [vdf_set_text_entry, vdf_find_object_value]
    rw [find_set_text_entries_other t h es]

theorem vdf_find_remove_other {k1 k2 : String} (x : VdfValue)
    (h : eq_ignore_ascii_case k1 k2 = false) :
    vdf_find_object_value (vdf_remove_entry x k2) k1 =
      vdf_find_object_value x k1 := by
  cases x with
  | Text s => rfl
  | Object es =>
    simp only [vdf_remove_entry, vdf_find_object_value]
    congr 1
    induction es with
    | nil => rfl
    | cons e rest ih =>
      obtain ⟨k0, v⟩ := e
      by_cases hm2 : eq_ignore_ascii_case k0 k2 = true
      · have hm1 : eq_ignore_ascii_case k0 k1 = false := by
          by_contra hc
          rw [Bool.not_eq_false] at hc
          have h12 : eq_ignore_ascii_case k1 k2 = true := by
            refine eq_ignore_ascii_case_trans ?_ hm2
            rw [eq_ignore_ascii_case_symm]; exact hc
          rw [h12] at h; exact Bool.true_eq_false.mp h
        simp only [List.filter, hm2, Bool.not_true, List.find?, hm1]
        exact ih
      · rw [Bool.not_eq_true] at hm2
        simp only [List.filter, hm2, Bool.not_false, List.find?]
        by_cases hm1 : eq_ignore_ascii_case k0 k1 = true
        · simp [hm1]
        · rw [Bool.not_eq_true] at hm1
          simp only [hm1]
          exact ih

theorem vdf_apply_edit_object {x : VdfValue} (h : isObjectV x = true)
    (op : String × Option String) : isObjectV (vdf_apply_edit x op) = true := by
  obtain ⟨k, o⟩ := op
  cases o with
  | none => exact isObjectV_remove_entry h k
  | some t => exact isObjectV_set_text_entry x k t

theorem vdf_apply_edits_object {x : VdfValue} (h : isObjectV x = true) :
    ∀ ops : List (String × Option String),
      isObjectV (vdf_apply_edits ops x) = true := by
  intro ops
  induction ops generalizing x with
  | nil => exact h
  | cons op rest ih =>
    show isObjectV (vdf_apply_edits rest (vdf_apply_edit x op)) = true
    exact ih (vdf_apply_edit_object h op)

theorem vdf_find_apply_edit_self (x : VdfValue) (k : String) (o : Option String) :
    vdf_find_object_value (vdf_apply_edit x (k, o)) k = o.map VdfValue.Text := by
  cases o with
  | none => exact vdf_find_remove_self x k
  | some t => exact vdf_find_set_self x k t

theorem vdf_apply_edit_fix {x : VdfValue} {k : String} {o : Option String}
    (h : vdf_find_object_value x k = o.map VdfValue.Text) :
    vdf_apply_edit x (k, o) = x := by
  cases o with
  | none => exact vdf_remove_entry_fix h
  | some t => exact vdf_set_entry_fix h

theorem vdf_find_apply_edit_other {k1 : String} (x : VdfValue)
    (op : String × Option String) (h : eq_ignore_ascii_case k1 op.1 = false) :
    vdf_find_object_value (vdf_apply_edit x op) k1 = vdf_find_object_value x k1 := by
  obtain ⟨k2, o⟩ := op
  cases o with
  | none => exact vdf_find_remove_other x h
  | some t => exact vdf_find_set_other x t h

theorem vdf_find_apply_edits_other (k : String) :
    ∀ (ops : List (String × Option String)) (x : VdfValue),
      (∀ op ∈ ops, eq_ignore_ascii_case k op.1 = false) →
      vdf_find_object_value (vdf_apply_edits ops x) k = vdf_find_object_value x k := by
  intro ops
  induction ops with
  | nil => intro x _; rfl
  | cons op rest ih =>
    intro x hops
    show vdf_find_object_value (vdf_apply_edits rest (vdf_apply_edit x op)) k = _
    rw [ih (vdf_apply_edit x op) (fun op2 h2 => hops op2 (List.mem_cons_of_mem op h2))]
    exact vdf_find_apply_edit_other x op (hops op (List.mem_cons_self op rest))

theorem vdf_apply_edits_idem :
    ∀ ops : List (String × Option String),
      List.Pairwise (fun a b => eq_ignore_ascii_case a.1 b.1 = false) ops →
      ∀ x : VdfValue,
        vdf_apply_edits ops (vdf_apply_edits ops x) = vdf_apply_edits ops x := by
  intro ops
  induction ops with
  | nil => intro _ x; rfl
  | cons op rest ih =>
    intro hp x
    obtain ⟨k, o⟩ := op
    rw [List.pairwise_cons] at hp
    obtain ⟨hhead, htail⟩ := hp
    show vdf_apply_edits rest
        (vdf_apply_edit (vdf_apply_edits rest (vdf_apply_edit x (k, o))) (k, o)) =
      vdf_apply_edits rest (vdf_apply_edit x (k, o))
    have hfind : vdf_find_object_value
        (vdf_apply_edits rest (vdf_apply_edit x (k, o))) k = o.map VdfValue.Text := by
      rw [vdf_find_apply_edits_other k rest (vdf_apply_edit x (k, o))
        (fun op2 h2 => hhead op2 h2)]
      exact vdf_find_apply_edit_self x k o
    rw [vdf_apply_edit_fix hfind]
    exact ih htail (vdf_apply_edit x (k, o))

theorem launch_options_edit_rep (lo : String) (x : VdfValue) :
    launch_options_edit lo x = vdf_apply_edits (launch_options_edit_ops lo) x := by
  unfold launch_options_edit launch_options_edit_ops
  by_cases h : lo = "" <;> simp [h, vdf_apply_edits, vdf_apply_edit]

theorem auto_update_edit_rep (m : String) (x : VdfValue) :
    auto_update_edit m x = vdf_apply_edits (auto_update_edit_ops m) x := by
  unfold auto_update_edit auto_update_edit_ops
  split <;> rfl

theorem background_downloads_edit_rep (m : String) (x : VdfValue) :
    background_downloads_edit m x = vdf_apply_edits (background_downloads_edit_ops m) x := by
  unfold background_downloads_edit background_downloads_edit_ops
  split <;> rfl

theorem steam_input_edit_rep (m : String) (x : VdfValue) :
    steam_input_edit m x = vdf_apply_edits (steam_input_edit_ops m) x := by
  unfold steam_input_edit steam_input_edit_ops
  split <;> rfl

theorem vdf_apply_edits_append (a b : List (String × Option String)) (x : VdfValue) :
    vdf_apply_edits (a ++ b) x = vdf_apply_edits b (vdf_apply_edits a x) := by
  simp [vdf_apply_edits, List.foldl_append]

theorem apply_app_settings_edits_eq_edit_ops (settings : GamePropertiesSettingsPayload)
    (x : VdfValue) :
    apply_app_settings_edits settings x =
      vdf_apply_edits (game_settings_edit_ops settings) x := by
  unfold apply_app_settings_edits game_settings_edit_ops
  rw [vdf_apply_edits_append, vdf_apply_edits_append, vdf_apply_edits_append]
  rw [← launch_options_edit_rep, ← auto_update_edit_rep, ← background_downloads_edit_rep,
    ← steam_input_edit_rep]

theorem launch_options_edit_ops_keys (lo : String) :
    ∀ op ∈ launch_options_edit_ops lo, op.1 = "LaunchOptions" := by
  intro op h
  unfold launch_options_edit_ops at h
  by_cases hc : lo = "" <;> simp [hc] at h <;> rw [h]

theorem auto_update_edit_ops_keys (m : String) :
    ∀ op ∈ auto_update_edit_ops m, op.1 = "AutoUpdateBehavior" := by
  intro op h
  unfold auto_update_edit_ops at h
  split at h <;> simp_all

theorem background_downloads_edit_ops_keys (m : String) :
    ∀ op ∈ background_downloads_edit_ops m, op.1 = "AllowDownloadsWhileRunning" := by
  intro op h
  unfold background_downloads_edit_ops at h
  split at h <;> simp_all

theorem steam_input_edit_ops_keys (m : String) :
    ∀ op ∈ steam_input_edit_ops m, op.1 = "SteamInput" := by
  intro op h
  unfold steam_input_edit_ops at h
  split at h <;> simp_all

theorem launch_options_edit_ops_pairwise (lo : String) :
    List.Pairwise (fun a b => eq_ignore_ascii_case a.1 b.1 = false)
      (launch_options_edit_ops lo) := by
  unfold launch_options_edit_ops
  by_cases hc : lo = "" <;> simp [hc]

theorem auto_update_edit_ops_pairwise (m : String) :
    List.Pairwise (fun a b => eq_ignore_ascii_case a.1 b.1 = false)
      (auto_update_edit_ops m) := by
  unfold auto_update_edit_ops
  split <;> simp

theorem background_downloads_edit_ops_pairwise (m : String) :
    List.Pairwise (fun a b => eq_ignore_ascii_case a.1 b.1 = false)
      (background_downloads_edit_ops m) := by
  unfold background_downloads_edit_ops
  split <;> simp

theorem steam_input_edit_ops_pairwise (m : String) :
    List.Pairwise (fun a b => eq_ignore_ascii_case a.1 b.1 = false)
      (steam_input_edit_ops m) := by
  unfold steam_input_edit_ops
  split <;> simp

theorem game_settings_edit_ops_pairwise (settings : GamePropertiesSettingsPayload) :
    List.Pairwise (fun a b => eq_ignore_ascii_case a.1 b.1 = false)
      (game_settings_edit_ops settings) := by
  unfold game_settings_edit_ops
  refine List.pairwise_append.mpr ⟨List.pairwise_append.mpr ⟨List.pairwise_append.mpr
    ⟨launch_options_edit_ops_pairwise _, auto_update_edit_ops_pairwise _, ?_⟩,
    background_downloads_edit_ops_pairwise _, ?_⟩, steam_input_edit_ops_pairwise _, ?_⟩
  · intro a ha b hb
    rw [launch_options_edit_ops_keys _ a ha, auto_update_edit_ops_keys _ b hb]
    decide
  · intro a ha b hb
    rcases List.mem_append.mp ha with h1 | h2
    · rw [launch_options_edit_ops_keys _ a h1, background_downloads_edit_ops_keys _ b hb]
      decide
    · rw [auto_update_edit_ops_keys _ a h2, background_downloads_edit_ops_keys _ b hb]
      decide
  · intro a ha b hb
    rcases List.mem_append.mp ha with h12 | h3
    · rcases List.mem_append.mp h12 with h1 | h2
      · rw [launch_options_edit_ops_keys _ a h1, steam_input_edit_ops_keys _ b hb]
        decide
      · rw [auto_update_edit_ops_keys _ a h2, steam_input_edit_ops_keys _ b hb]
        decide
    · rw [background_downloads_edit_ops_keys _ a h3, steam_input_edit_ops_keys _ b hb]
      decide

theorem apply_app_settings_edits_idem (settings : GamePropertiesSettingsPayload)
    (x : VdfValue) :
    apply_app_settings_edits settings (apply_app_settings_edits settings x) =
      apply_app_settings_edits settings x := by
  simp only [apply_app_settings_edits_eq_edit_ops]
  exact vdf_apply_edits_idem _ (game_settings_edit_ops_pairwise settings) x

theorem apply_app_settings_edits_object (settings : GamePropertiesSettingsPayload)
    {x : VdfValue} (h : isObjectV x = true) :
    isObjectV (apply_app_settings_edits settings x) = true := by
  rw [apply_app_settings_edits_eq_edit_ops]
  exact vdf_apply_edits_object h _

theorem vdf_update_entries_compose (k : String) (f g : VdfValue → VdfValue)
    (hf : ∀ u, isObjectV u = true → isObjectV (f u) = true) :
    ∀ es : List (String × VdfValue),
      vdf_update_entries k g (vdf_update_entries k f es) =
        vdf_update_entries k (fun v => g (f v)) es := by
  intro es
  induction es with
  | nil =>
    simp only [vdf_update_entries, eq_ignore_ascii_case_refl, if_true]
    rw [vdf_narrow_of_object (hf (VdfValue.Object []) rfl)]
  | cons e rest ih =>
    obtain ⟨k0, v⟩ := e
    by_cases hm : eq_ignore_ascii_case k0 k = true
    · simp only [vdf_update_entries, hm, if_true]
      rw [vdf_narrow_of_object (hf (vdf_narrow v) (isObjectV_narrow v))]
    · rw [Bool.not_eq_true] at hm
      simp only [vdf_update_entries, hm, Bool.false_eq_true, if_false]
      rw [ih]

theorem vdf_get_or_insert_compose (v : VdfValue) (k : String)
    (f g : VdfValue → VdfValue)
    (hf : ∀ u, isObjectV u = true → isObjectV (f u) = true) :
    vdf_get_or_insert_object_update (vdf_get_or_insert_object_update v k f) k g =
      vdf_get_or_insert_object_update v k (fun u => g (f u)) := by
  cases v with
  | Text s =>
    simp only [vdf_get_or_insert_object_update]
    rw [vdf_update_entries_compose k f g hf []]
  | Object es =>
    simp only [vdf_get_or_insert_object_update]
    rw [vdf_update_entries_compose k f g hf es]

theorem vdf_update_entries_comm {k1 k2 : String} (f g : VdfValue → VdfValue)
    (h12 : eq_ignore_ascii_case k1 k2 = false) :
    ∀ es : List (String × VdfValue),
      (es.find? (fun e => eq_ignore_ascii_case e.1 k1)).isSome = true →
      vdf_update_entries k1 f (vdf_update_entries k2 g es) =
        vdf_update_entries k2 g (vdf_update_entries k1 f es) := by
  intro es
  induction es with
  | nil => intro h; simp [List.find?] at h
  | cons e rest ih =>
    intro h
    obtain ⟨k0, v⟩ := e
    by_cases hm1 : eq_ignore_ascii_case k0 k1 = true
    · have hm2 : eq_ignore_ascii_case k0 k2 = false := by
        by_contra hc
        rw [Bool.not_eq_false] at hc
        have ht : eq_ignore_ascii_case k1 k2 = true := by
          refine eq_ignore_ascii_case_trans ?_ hc
          rw [eq_ignore_ascii_case_symm]; exact hm1
        rw [ht] at h12; exact Bool.true_eq_false.mp h12
      simp only [vdf_update_entries, hm1, hm2, if_true, Bool.false_eq_true, if_false]
    · rw [Bool.not_eq_true] at hm1
      simp only [List.find?, hm1] at h
      by_cases hm2 : eq_ignore_ascii_case k0 k2 = true
      · simp only [vdf_update_entries, hm1, hm2, if_true, Bool.false_eq_true, if_false]
      · rw [Bool.not_eq_true] at hm2
        simp only [vdf_update_entries, hm1, hm2, Bool.false_eq_true, if_false]
        rw [ih h]

theorem vdf_get_or_insert_comm {k1 k2 : String} (v : VdfValue)
    (f g : VdfValue → VdfValue)
    (h12 : eq_ignore_ascii_case k1 k2 = false)
    (hc : (vdf_find_object_value v k1).isSome = true) :
    vdf_get_or_insert_object_update (vdf_get_or_insert_object_update v k2 g) k1 f =
      vdf_get_or_insert_object_update (vdf_get_or_insert_object_update v k1 f) k2 g := by
  cases v with
  | Text s => simp [vdf_find_object_value] at hc
  | Object es =>
    simp only [vdf_find_object_value] at hc
    have hc2 : (es.find? (fun e => eq_ignore_ascii_case e.1 k1)).isSome = true := by
      cases hfind : es.find? (fun e => eq_ignore_ascii_case e.1 k1) with
      | none => rw [hfind] at hc; simp at hc
      | some e => rfl
    simp only [vdf_get_or_insert_object_update]
    rw [vdf_update_entries_comm f g h12 es hc2]

theorem filter_update_entries (k : String) (f : VdfValue → VdfValue) :
    ∀ es : List (String × VdfValue),
      (vdf_update_entries k f es).filter (fun e => !eq_ignore_ascii_case e.1 k) =
        es.filter (fun e => !eq_ignore_ascii_case e.1 k) := by
  intro es
  induction es with
  | nil =>
    simp [vdf_update_entries, List.filter, eq_ignore_ascii_case_refl]
  | cons e rest ih =>
    obtain ⟨k0, v⟩ := e
    by_cases hm : eq_ignore_ascii_case k0 k = true
    · simp only [vdf_update_entries, hm, if_true, List.filter, Bool.not_true]
    · rw [Bool.not_eq_true] at hm
      simp only [vdf_update_entries, hm, Bool.false_eq_true, if_false, List.filter,
        Bool.not_false]
      rw [ih]

theorem vdf_remove_get_or_insert {v : VdfValue} (h : isObjectV v = true)
    (k : String) (f : VdfValue → VdfValue) :
    vdf_remove_entry (vdf_get_or_insert_object_update v k f) k =
      vdf_remove_entry v k := by
  cases v with
  | Text s => simp [isObjectV] at h
  | Object es =>
    simp only [vdf_get_or_insert_object_update, vdf_remove_entry]
    rw [filter_update_entries k f es]

theorem vdf_remove_remove (v : VdfValue) (k : String) :
    vdf_remove_entry (vdf_remove_entry v k) k = vdf_remove_entry v k :=
  vdf_remove_entry_fix (vdf_find_remove_self v k)

theorem vdf_ensure_object_path_append (p q : List String) :
    ∀ (t : VdfValue) (f : VdfValue → VdfValue),
      vdf_ensure_object_path_update t (p ++ q) f =
        vdf_ensure_object_path_update t p
          (fun o => vdf_ensure_object_path_update o q f) := by
  induction p with
  | nil => intro t f; rfl
  | cons k rest ih =>
    intro t f
    simp only [List.cons_append, vdf_ensure_object_path_update]
    congr 1
    funext c
    exact ih c f

theorem vdf_ensure_object_path_compose :
    ∀ (p : List String) (t : VdfValue) (f g : VdfValue → VdfValue),
      (∀ u, isObjectV u = true → isObjectV (f u) = true) →
      vdf_ensure_object_path_update (vdf_ensure_object_path_update t p f) p g =
        vdf_ensure_object_path_update t p (fun u => g (f u)) := by
  intro p
  induction p with
  | nil => intro t f g hf; rfl
  | cons k rest ih =>
    intro t f g hf
    simp only [vdf_ensure_object_path_update]
    rw [vdf_get_or_insert_compose t k
      (fun child => vdf_ensure_object_path_update child rest f)
      (fun child => vdf_ensure_object_path_update child rest g) ?hrest]
    case hrest =>
      intro u hu
      cases rest with
      | nil => exact hf u hu
      | cons k2 r2 => exact isObjectV_get_or_insert u k2 _
    congr 1
    funext c
    exact ih c f g hf

theorem apply_compat_mapping_edits_noforce {settings : GamePropertiesSettingsPayload}
    (key : String)
    (hforce : settings.compatibility.force_steam_play_compatibility_tool = false)
    (x : VdfValue) :
    apply_compat_mapping_edits settings key x = vdf_remove_entry x key := by
  unfold apply_compat_mapping_edits
  rw [if_neg]
  rw [hforce]
  exact Bool.false_ne_true

theorem apply_compat_mapping_edits_force_empty {settings : GamePropertiesSettingsPayload}
    (key : String)
    (hforce : settings.compatibility.force_steam_play_compatibility_tool = true)
    (hname : map_compatibility_tool_label_to_steam_name
      settings.compatibility.steam_play_compatibility_tool = "")
    (x : VdfValue) :
    apply_compat_mapping_edits settings key x =
      vdf_remove_entry (vdf_get_or_insert_object_update x key (fun e => e)) key := by
  unfold apply_compat_mapping_edits
  rw [if_pos hforce]
  dsimp only
  rw [if_pos hname]
  rfl

theorem apply_compat_mapping_edits_force_set {settings : GamePropertiesSettingsPayload}
    (key : String)
    (hforce : settings.compatibility.force_steam_play_compatibility_tool = true)
    (hname : ¬ map_compatibility_tool_label_to_steam_name
      settings.compatibility.steam_play_compatibility_tool = "")
    (x : VdfValue) :
    apply_compat_mapping_edits settings key x =
      vdf_get_or_insert_object_update x key (fun entry =>
        vdf_set_text_entry
          (vdf_set_text_entry
            (vdf_set_text_entry entry "name"
              (map_compatibility_tool_label_to_steam_name
                settings.compatibility.steam_play_compatibility_tool))
            "config" "")
          "priority" "250") := by
  unfold apply_compat_mapping_edits
  rw [if_pos hforce]
  dsimp only
  rw [if_neg hname]
  rfl

theorem compat_triple_set_idem (n : String) (x : VdfValue) :
    vdf_set_text_entry
        (vdf_set_text_entry
          (vdf_set_text_entry
            (vdf_set_text_entry
              (vdf_set_text_entry (vdf_set_text_entry x "name" n) "config" "")
              "priority" "250")
            "name" n)
          "config" "")
        "priority" "250" =
      vdf_set_text_entry
        (vdf_set_text_entry (vdf_set_text_entry x "name" n) "config" "")
        "priority" "250" := by
  have hpw : List.Pairwise (fun a b => eq_ignore_ascii_case a.1 b.1 = false)
      ([("name", some n), ("config", some ""), ("priority", some "250")] :
        List (String × Option String)) := by
    constructor
    · intro b hb
      rcases List.mem_cons.mp hb with h | h
      · rw [h]
        show eq_ignore_ascii_case "name" "config" = false
        decide
      · rw [List.mem_singleton.mp h]
        show eq_ignore_ascii_case "name" "priority" = false
        decide
    constructor
    · intro b hb
      rw [List.mem_singleton.mp hb]
      show eq_ignore_ascii_case "config" "priority" = false
      decide
    · simp
  calc
    vdf_set_text_entry
        (vdf_set_text_entry
          (vdf_set_text_entry
            (vdf_set_text_entry
              (vdf_set_text_entry (vdf_set_text_entry x "name" n) "config" "")
              "priority" "250")
            "name" n)
          "config" "")
        "priority" "250" =
      vdf_apply_edits [("name", some n), ("config", some ""), ("priority", some "250")]
        (vdf_apply_edits [("name", some n), ("config", some ""), ("priority", some "250")]
          x) := rfl
    _ = vdf_apply_edits [("name", some n), ("config", some ""), ("priority", some "250")]
        x := vdf_apply_edits_idem _ hpw x
    _ = vdf_set_text_entry
        (vdf_set_text_entry (vdf_set_text_entry x "name" n) "config" "")
        "priority" "250" := rfl

theorem apply_compat_mapping_edits_idem (settings : GamePropertiesSettingsPayload)
    (key : String) (x : VdfValue) :
    apply_compat_mapping_edits settings key
        (apply_compat_mapping_edits settings key x) =
      apply_compat_mapping_edits settings key x := by
  by_cases hforce : settings.compatibility.force_steam_play_compatibility_tool = true
  · by_cases hname : map_compatibility_tool_label_to_steam_name
        settings.compatibility.steam_play_compatibility_tool = ""
    · simp only [apply_compat_mapping_edits_force_empty key hforce hname]
      rw [vdf_remove_get_or_insert
        (isObjectV_remove_entry (isObjectV_get_or_insert x key (fun e => e)) key) key
        (fun e => e)]
      exact vdf_remove_remove _ key
    · simp only [apply_compat_mapping_edits_force_set key hforce hname]
      rw [vdf_get_or_insert_compose x key _ _
        (fun u _ => isObjectV_set_text_entry _ "priority" "250")]
      congr 1
      funext entry
      exact compat_triple_set_idem _ entry
  · rw [Bool.not_eq_true] at hforce
    simp only [apply_compat_mapping_edits_noforce key hforce]
    exact vdf_remove_remove x key

theorem apply_compat_mapping_edits_object (settings : GamePropertiesSettingsPayload)
    (key : String) {x : VdfValue} (h : isObjectV x = true) :
    isObjectV (apply_compat_mapping_edits settings key x) = true := by
  by_cases hforce : settings.compatibility.force_steam_play_compatibility_tool = true
  · by_cases hname : map_compatibility_tool_label_to_steam_name
        settings.compatibility.steam_play_compatibility_tool = ""
    · rw [apply_compat_mapping_edits_force_empty key hforce hname]
      exact isObjectV_remove_entry (isObjectV_get_or_insert x key (fun e => e)) key
    · rw [apply_compat_mapping_edits_force_set key hforce hname]
      exact isObjectV_get_or_insert x key _
  · rw [Bool.not_eq_true] at hforce
    rw [apply_compat_mapping_edits_noforce key hforce]
    exact isObjectV_remove_entry h key

theorem apply_steam_game_properties_settings_p4 (settings : GamePropertiesSettingsPayload)
    (app_id_key : String) (t : VdfValue) :
    apply_steam_game_properties_settings settings app_id_key t =
      vdf_ensure_object_path_update t
        ["UserLocalConfigStore", "Software", "Valve", "Steam"]
        (fun o =>
          vdf_get_or_insert_object_update
            (vdf_get_or_insert_object_update o "apps"
              (fun c => vdf_get_or_insert_object_update c app_id_key
                (apply_app_settings_edits settings)))
            "CompatToolMapping"
            (apply_compat_mapping_edits settings app_id_key)) := by
  unfold apply_steam_game_properties_settings
  dsimp only
  rw [show (["UserLocalConfigStore", "Software", "Valve", "Steam", "apps"] : List String) =
      ["UserLocalConfigStore", "Software", "Valve", "Steam"] ++ ["apps"] from rfl]
  rw [show (["UserLocalConfigStore", "Software", "Valve", "Steam", "CompatToolMapping"] :
        List String) =
      ["UserLocalConfigStore", "Software", "Valve", "Steam"] ++ ["CompatToolMapping"] from rfl]
  rw [vdf_ensure_object_path_append, vdf_ensure_object_path_append]
  rw [vdf_ensure_object_path_compose]
  · rfl
  · intro u _
    exact isObjectV_get_or_insert u "apps" _

theorem game_properties_apps_step_idem (settings : GamePropertiesSettingsPayload)
    (app_id_key : String) (c : VdfValue) :
    vdf_get_or_insert_object_update
        (vdf_get_or_insert_object_update c app_id_key (apply_app_settings_edits settings))
        app_id_key (apply_app_settings_edits settings) =
      vdf_get_or_insert_object_update c app_id_key (apply_app_settings_edits settings) := by
  rw [vdf_get_or_insert_compose c app_id_key _ _
    (fun u h => apply_app_settings_edits_object settings h)]
  congr 1
  funext d
  exact apply_app_settings_edits_idem settings d

theorem game_properties_apps_ensure_idem (settings : GamePropertiesSettingsPayload)
    (app_id_key : String) (u : VdfValue) :
    vdf_get_or_insert_object_update
        (vdf_get_or_insert_object_update u "apps"
          (fun c => vdf_get_or_insert_object_update c app_id_key
            (apply_app_settings_edits settings)))
        "apps"
        (fun c => vdf_get_or_insert_object_update c app_id_key
          (apply_app_settings_edits settings)) =
      vdf_get_or_insert_object_update u "apps"
        (fun c => vdf_get_or_insert_object_update c app_id_key
          (apply_app_settings_edits settings)) := by
  rw [vdf_get_or_insert_compose u "apps" _ _
    (fun w _ => isObjectV_get_or_insert w app_id_key _)]
  congr 1
  funext c
  exact game_properties_apps_step_idem settings app_id_key c

theorem game_properties_compat_ensure_idem (settings : GamePropertiesSettingsPayload)
    (app_id_key : String) (v : VdfValue) :
    vdf_get_or_insert_object_update
        (vdf_get_or_insert_object_update v "CompatToolMapping"
          (apply_compat_mapping_edits settings app_id_key))
        "CompatToolMapping" (apply_compat_mapping_edits settings app_id_key) =
      vdf_get_or_insert_object_update v "CompatToolMapping"
        (apply_compat_mapping_edits settings app_id_key) := by
  rw [vdf_get_or_insert_compose v "CompatToolMapping" _ _
    (fun w hw => apply_compat_mapping_edits_object settings app_id_key hw)]
  congr 1
  funext w
  exact apply_compat_mapping_edits_idem settings app_id_key w

theorem game_properties_inner_step_idem (settings : GamePropertiesSettingsPayload)
    (app_id_key : String) (u : VdfValue) :
    vdf_get_or_insert_object_update
        (vdf_get_or_insert_object_update
          (vdf_get_or_insert_object_update
            (vdf_get_or_insert_object_update u "apps"
              (fun c => vdf_get_or_insert_object_update c app_id_key
                (apply_app_settings_edits settings)))
            "CompatToolMapping" (apply_compat_mapping_edits settings app_id_key))
          "apps"
          (fun c => vdf_get_or_insert_object_update c app_id_key
            (apply_app_settings_edits settings)))
        "CompatToolMapping" (apply_compat_mapping_edits settings app_id_key) =
      vdf_get_or_insert_object_update
        (vdf_get_or_insert_object_update u "apps"
          (fun c => vdf_get_or_insert_object_update c app_id_key
            (apply_app_settings_edits settings)))
        "CompatToolMapping" (apply_compat_mapping_edits settings app_id_key) := by
  obtain ⟨u0, hu0, hfind⟩ := vdf_find_get_or_insert u "apps"
    (fun c => vdf_get_or_insert_object_update c app_id_key
      (apply_app_settings_edits settings))
  have hcomm := @vdf_get_or_insert_comm "apps" "CompatToolMapping"
    (vdf_get_or_insert_object_update u "apps"
      (fun c => vdf_get_or_insert_object_update c app_id_key
        (apply_app_settings_edits settings)))
    (fun c => vdf_get_or_insert_object_update c app_id_key
      (apply_app_settings_edits settings))
    (apply_compat_mapping_edits settings app_id_key)
    (by decide) (by rw [hfind]; rfl)
  rw [hcomm]
  rw [game_properties_apps_ensure_idem settings app_id_key u]
  exact game_properties_compat_ensure_idem settings app_id_key _

theorem apply_steam_game_properties_settings_tree_idem
    (settings : GamePropertiesSettingsPayload) (app_id_key : String) (t : VdfValue) :
    apply_steam_game_properties_settings settings app_id_key
        (apply_steam_game_properties_settings settings app_id_key t) =
      apply_steam_game_properties_settings settings app_id_key t := by
  simp only [apply_steam_game_properties_settings_p4]
  rw [vdf_ensure_object_path_compose]
  · congr 1
    funext u
    exact game_properties_inner_step_idem settings app_id_key u
  · intro u _
    exact isObjectV_get_or_insert _ "CompatToolMapping" _

/-- C8: applying the same normalized settings payload to a configuration
tree twice yields the same serialized document as applying it once — the
second application is a no-op on the serialized localconfig. -/
theorem apply_steam_game_properties_settings_idempotent
    (settings : GamePropertiesSettingsPayload) (app_id_key : String) (t : VdfValue) :
    serialize_vdf_document
        (apply_steam_game_properties_settings settings app_id_key
          (apply_steam_game_properties_settings settings app_id_key t)) =
      serialize_vdf_document
        (apply_steam_game_properties_settings settings app_id_key t) := by
  rw [apply_steam_game_properties_settings_tree_idem]

end Catalyst
